import Mathlib

/-!
Shallow embedding of the `ray-trace-rs` renderer core, translated from the
repository sources (`src/vec3.rs`, `src/interval.rs`, `src/material.rs`,
`src/world.rs`, `src/camera.rs`, `src/main.rs`).

Conventions of the embedding:
* Rust `f64` values are modelled as real numbers (`ℝ`); floating-point
  rounding is outside the scope of the claims, which are algorithmic.
* Lean's real division returns `0` on a zero denominator; the claims under
  consideration quantify over well-formed (non-degenerate) inputs wherever
  a division by zero could otherwise occur, and degenerate cases are called
  out explicitly where they decide a claim.
* Randomness (`thread_rng`, `random_on_sphere`) is modelled by passing the
  drawn values explicitly as oracle streams: every claim is quantified over
  "every value of the random draw", matching the spec's wording.
* Mutation of an out-parameter record (`HitRecord` in `main.rs`) and the
  builder-style record updates of `world.rs` are modelled functionally.
-/

noncomputable section

namespace RayTrace

/-- `Vec3(pub f64, pub f64, pub f64)` from `src/vec3.rs`. -/
structure Vec3 where
  x : ℝ
  y : ℝ
  z : ℝ
deriving DecidableEq

namespace Vec3

/-- `Vec3::new`. -/
def new (x y z : ℝ) : Vec3 := ⟨x, y, z⟩

/-- `Vec3::EMPTY`. -/
def EMPTY : Vec3 := ⟨0, 0, 0⟩

/-- Componentwise `Add for Vec3`. -/
instance : Add Vec3 := ⟨fun a b => ⟨a.x + b.x, a.y + b.y, a.z + b.z⟩⟩

/-- Componentwise `Sub for Vec3`. -/
instance : Sub Vec3 := ⟨fun a b => ⟨a.x - b.x, a.y - b.y, a.z - b.z⟩⟩

/-- Componentwise `Mul for Vec3` (Hadamard product). -/
instance : Mul Vec3 := ⟨fun a b => ⟨a.x * b.x, a.y * b.y, a.z * b.z⟩⟩

/-- `Mul<f64> for Vec3` (scalar on the right, as in the source). -/
instance : HMul Vec3 ℝ Vec3 := ⟨fun a r => ⟨a.x * r, a.y * r, a.z * r⟩⟩

/-- `Div<f64> for Vec3`. -/
instance : HDiv Vec3 ℝ Vec3 := ⟨fun a r => ⟨a.x / r, a.y / r, a.z / r⟩⟩

/-- `Neg for Vec3`. -/
instance : Neg Vec3 := ⟨fun a => ⟨-a.x, -a.y, -a.z⟩⟩

@[simp] lemma add_def (a b : Vec3) : a + b = ⟨a.x + b.x, a.y + b.y, a.z + b.z⟩ := rfl

@[simp] lemma sub_def (a b : Vec3) : a - b = ⟨a.x - b.x, a.y - b.y, a.z - b.z⟩ := rfl

@[simp] lemma mul_def (a b : Vec3) : a * b = ⟨a.x * b.x, a.y * b.y, a.z * b.z⟩ := rfl

@[simp] lemma smul_def (a : Vec3) (r : ℝ) : a * r = (⟨a.x * r, a.y * r, a.z * r⟩ : Vec3) := rfl

@[simp] lemma sdiv_def (a : Vec3) (r : ℝ) : a / r = (⟨a.x / r, a.y / r, a.z / r⟩ : Vec3) := rfl

@[simp] lemma neg_def (a : Vec3) : -a = (⟨-a.x, -a.y, -a.z⟩ : Vec3) := rfl

/-- `Vec3::sum`. -/
def sum (v : Vec3) : ℝ := v.x + v.y + v.z

/-- `Vec3::length_squared`. -/
def length_squared (v : Vec3) : ℝ := v.x * v.x + v.y * v.y + v.z * v.z

/-- `Vec3::length`. -/
def length (v : Vec3) : ℝ := Real.sqrt v.length_squared

/-- `Vec3::unit`. -/
def unit (v : Vec3) : Vec3 := v / v.length

/-- `Vec3::near_zero`. -/
def near_zero (v : Vec3) : Prop :=
  |v.x| < 1e-8 ∧ |v.y| < 1e-8 ∧ |v.z| < 1e-8

instance (v : Vec3) : Decidable v.near_zero := by unfold near_zero; infer_instance

/-- `Vec3::dot`: `(a * b).sum()`. -/
def dot (a b : Vec3) : ℝ := (a * b).sum

/-- `Vec3::cross`. -/
def cross (a b : Vec3) : Vec3 :=
  ⟨a.y * b.z - a.z * b.y, a.z * b.x - a.x * b.z, a.x * b.y - a.y * b.x⟩

/-- `Vec3::det`: `dot(c1, cross(c2, c3))`. -/
def det (c1 c2 c3 : Vec3) : ℝ := dot c1 (cross c2 c3)

/-- `Vec3::reflect`: `v - n * dot(v, n) * 2.0`. -/
def reflect (v n : Vec3) : Vec3 := v - n * dot v n * (2 : ℝ)

/-- `random_on_hemisphere_vec3` from `src/vec3.rs`, with the unit-sphere
draw `r` passed in explicitly. -/
def random_on_hemisphere (r normal : Vec3) : Vec3 :=
  if dot r normal > 0 then r else -r

/-- Channel selector for the flat framebuffer: component `0`/`1`/`2` of a
color, mirroring the `c.x() / c.y() / c.z()` stores in `parallel_render`. -/
def ch (c : Vec3) (k : ℤ) : ℝ := if k = 0 then c.x else if k = 1 then c.y else c.z

end Vec3

/-- `Interval` from `src/interval.rs`.  The bounds are modelled in `EReal`
so that `f64::INFINITY` and `f64::NEG_INFINITY` (used by the named interval
constants) have exact counterparts `⊤` and `⊥`; every finite `f64` bound is
a coerced real.  All ray-parameter arithmetic stays in `ℝ`. -/
structure Interval where
  min : EReal
  max : EReal

namespace Interval

/-- `Interval::new`. -/
def new (min max : EReal) : Interval := ⟨min, max⟩

/-- `Interval::contains` (closed test), applied to a finite ray parameter. -/
def contains (i : Interval) (x : ℝ) : Prop := i.min ≤ (x : EReal) ∧ (x : EReal) ≤ i.max

instance (i : Interval) (x : ℝ) : Decidable (i.contains x) := by
  unfold contains; infer_instance

/-- `Interval::surrounds` (open test), applied to a finite ray parameter. -/
def surrounds (i : Interval) (x : ℝ) : Prop := i.min < (x : EReal) ∧ (x : EReal) < i.max

instance (i : Interval) (x : ℝ) : Decidable (i.surrounds x) := by
  unfold surrounds; infer_instance

/-- `Interval::EMPTY = [+inf, -inf]`. -/
def EMPTY : Interval := ⟨⊤, ⊥⟩

/-- `Interval::MAX = [-inf, +inf]`. -/
def MAX : Interval := ⟨⊥, ⊤⟩

/-- `Interval::FORWARD = [0, +inf)`. -/
def FORWARD : Interval := ⟨((0 : ℝ) : EReal), ⊤⟩

/-- `Interval::ALMOST_FORWARD = [0.001, +inf)`. -/
def ALMOST_FORWARD : Interval := ⟨((0.001 : ℝ) : EReal), ⊤⟩

end Interval

/-- `Ray` from `src/world.rs`. -/
structure Ray where
  origin : Vec3
  dir : Vec3

namespace Ray

/-- `Ray::at`: `origin + dir * t` (`at` is a Lean keyword, hence the prime). -/
def at' (r : Ray) (t : ℝ) : Vec3 := r.origin + r.dir * t

/-- `Ray::EMPTY`. -/
def EMPTY : Ray := ⟨Vec3.EMPTY, Vec3.EMPTY⟩

end Ray

/-- The material set of `src/material.rs`: `Lambertian { albedo }` and
`Metal { albedo, fuzz }`, closed up as a sum type (the Rust code uses
`Arc<dyn Material>` over exactly these two implementations). -/
inductive Material where
  | lambertian (albedo : Vec3)
  | metal (albedo : Vec3) (fuzz : ℝ)

/-- `HitRecord` from `src/world.rs` (the `main.rs` snapshot's record is the
same minus the `material` field, which none of its readers consult). -/
structure HitRecord where
  t : ℝ
  point : Vec3
  normal : Vec3
  front_face : Bool
  material : Material

/-- `HitRecord::new` (the default record; its material is
`Lambertian::new(Vec3::EMPTY)`). -/
def HitRecord.new : HitRecord :=
  ⟨0, Vec3.EMPTY, Vec3.EMPTY, false, .lambertian Vec3.EMPTY⟩

/-- `HitRecord::set_face_normal`: orient `outward_normal` against the ray and
record which side was hit. -/
def HitRecord.set_face_normal (rec : HitRecord) (ray : Ray) (outward_normal : Vec3) :
    HitRecord :=
  if Vec3.dot ray.dir outward_normal < 0 then
    { rec with front_face := true, normal := outward_normal }
  else
    { rec with front_face := false, normal := -outward_normal }

/-- `HitResult` from `src/world.rs`. -/
inductive HitResult where
  | hit (rec : HitRecord)
  | miss

/-- `ScatterResult` from `src/material.rs`. -/
inductive ScatterResult where
  | scatter (ray : Ray) (attenuation : Vec3)
  | noScatter

/-- `Material::scatter` from `src/material.rs`, with the unit-sphere random
draw passed in explicitly (`random_unit_vec3()` in the source). -/
def Material.scatter (m : Material) (ray : Ray) (rec : HitRecord) (draw : Vec3) :
    ScatterResult :=
  match m with
  | .lambertian albedo =>
    let dir := rec.normal + draw
    let dir := if dir.near_zero then rec.normal else dir
    .scatter ⟨rec.point, dir⟩ albedo
  | .metal albedo fuzz =>
    let reflected := (Vec3.reflect ray.dir rec.normal).unit + draw * fuzz
    if Vec3.dot reflected rec.normal > 0 then
      .scatter ⟨rec.point, reflected⟩ albedo
    else
      .noScatter

/-- `Sphere` from `src/world.rs`. -/
structure Sphere where
  center : Vec3
  radius : ℝ
  material : Material

/-- The hit record built by `Sphere::hit` once a root has been accepted. -/
def sphereRecord (s : Sphere) (ray : Ray) (root : ℝ) : HitRecord :=
  let point := ray.at' root
  let outward_normal := (point - s.center) / s.radius
  (HitRecord.set_face_normal
    { t := root, point := point, normal := Vec3.EMPTY, front_face := false,
      material := s.material } ray outward_normal)

/-- `Sphere::hit` from `src/world.rs` (identical to the `main.rs` version
modulo the material field). -/
def sphereHit (s : Sphere) (ray : Ray) (interval : Interval) : HitResult :=
  let oc := s.center - ray.origin
  let a := ray.dir.length_squared
  let h := Vec3.dot ray.dir oc
  let c := oc.length_squared - s.radius * s.radius
  let discriminant := h * h - a * c
  if discriminant < 0 then .miss
  else
    let sqrtd := Real.sqrt discriminant
    let root1 := (h - sqrtd) / a
    let root2 := (h + sqrtd) / a
    if interval.surrounds root1 then .hit (sphereRecord s ray root1)
    else if interval.surrounds root2 then .hit (sphereRecord s ray root2)
    else .miss

/-- `Triangle` from `src/world.rs`. -/
structure Triangle where
  a : Vec3
  b : Vec3
  c : Vec3
  material : Material

/-- `Triangle::hit` from `src/world.rs`. -/
def triangleHit (tr : Triangle) (ray : Ray) (interval : Interval) : HitResult :=
  let ab := tr.b - tr.a
  let ac := tr.c - tr.a
  let normal := (Vec3.cross ab ac).unit
  if Vec3.dot ray.dir normal = 0 then .miss
  else
    let b := ray.origin - tr.a
    let det_a := Vec3.det (-ray.dir) ab ac
    let t := Vec3.det b ab ac / det_a
    let u := Vec3.det (-ray.dir) b ac / det_a
    let v := Vec3.det (-ray.dir) ab b / det_a
    if u < 0 ∨ v < 0 ∨ u + v > 1 ∨ ¬ interval.contains t then .miss
    else
      .hit (HitRecord.set_face_normal
        { t := t, point := ray.at' t, normal := Vec3.EMPTY, front_face := false,
          material := tr.material } ray normal)

/-- The scan loop shared verbatim by `HittableList::hit` and `Polygon::hit`:
iterate over the elements, querying each with the shrinking interval
`[interval.min, closest_so_far]`; on a hit adopt the record and its `t`.
`best = none` models `hit_anything = false` (the placeholder record of the
source is never read). -/
def hitLoop (hitf : α → Ray → Interval → HitResult) (ray : Ray) (imin : EReal) :
    List α → Option HitRecord → EReal → Option HitRecord
  | [], best, _ => best
  | p :: ps, best, closest =>
    match hitf p ray (Interval.new imin closest) with
    | .hit temp_rec => hitLoop hitf ray imin ps (some temp_rec) (temp_rec.t : EReal)
    | .miss => hitLoop hitf ray imin ps best closest

/-- The aggregate `hit` of `HittableList` / `Polygon`: run the scan starting
from `closest_so_far = interval.max` and report `Hit`/`Miss`. -/
def aggregateHit (hitf : α → Ray → Interval → HitResult) (items : List α)
    (ray : Ray) (interval : Interval) : HitResult :=
  match hitLoop hitf ray interval.min items none interval.max with
  | some rec => .hit rec
  | none => .miss

/-- The primitives stored behind `Arc<dyn Hittable>` in the scenes the
repository builds: spheres and triangles. -/
inductive Primitive where
  | sphere (s : Sphere)
  | tri (t : Triangle)

/-- Dispatch of `Hittable::hit` over a primitive. -/
def primitiveHit : Primitive → Ray → Interval → HitResult
  | .sphere s => sphereHit s
  | .tri t => triangleHit t

/-- `HittableList::hit` from `src/world.rs`. -/
def hittableListHit (l : List Primitive) (ray : Ray) (interval : Interval) : HitResult :=
  aggregateHit primitiveHit l ray interval

/-- `Polygon::hit` from `src/world.rs`: the identical aggregation over the
mesh's triangles. -/
def polygonHit (triangles : List Triangle) (ray : Ray) (interval : Interval) : HitResult :=
  aggregateHit triangleHit triangles ray interval

/-- The background gradient shared by `Camera::ray_color` (`src/camera.rs`)
and `get_ray_color` (`src/main.rs`): Chebyshev-normalize the direction by
`x.abs().max(y.abs()).max(z.abs())`, then blend white with sky blue. -/
def background (ray : Ray) : Vec3 :=
  let unit_dir := ray.dir / max (max |ray.dir.x| |ray.dir.y|) |ray.dir.z|
  let t := 0.5 * (unit_dir.y + 1)
  Vec3.new 1 1 1 * (1 - t) + Vec3.new 0.5 0.7 1.0 * t

/-- `Camera::ray_color` from `src/camera.rs`: recursion bounded by `depth`,
scene queried with `Interval::ALMOST_FORWARD`, material scattering via
`Material::scatter` (returning `attenuation * recurse` on scatter, black on
absorb), background gradient on miss.  `rnd n` is the unit-sphere draw
consumed by the scatter call at recursion step `n`. -/
def rayColor (world : List Primitive) (ray : Ray) (depth : ℤ) (rnd : ℕ → Vec3) : Vec3 :=
  if h : depth < 0 then Vec3.EMPTY
  else
    match hittableListHit world ray Interval.ALMOST_FORWARD with
    | .hit hit_record =>
      match hit_record.material.scatter ray hit_record (rnd 0) with
      | .scatter scattered attenuation =>
        attenuation * rayColor world scattered (depth - 1) (fun n => rnd (n + 1))
      | .noScatter => Vec3.EMPTY
    | .miss => background ray
termination_by (depth + 1).toNat
decreasing_by simp_wf; omega

/-- `get_ray_color` from `src/main.rs`: scene queried with
`Interval::FORWARD`, diffuse bounce `0.5 * get_ray_color(point → hemisphere
draw)`, background gradient on miss.  The `main.rs` scene holds only
spheres; its `HittableList::hit` is the same scan, so it is modelled by
`aggregateHit sphereHit`.  `rnd n` is the `random_on_sphere` draw consumed
at bounce `n`. -/
def getRayColor (world : List Sphere) (ray : Ray) (depth : ℤ) (rnd : ℕ → Vec3) : Vec3 :=
  if h : depth < 0 then Vec3.EMPTY
  else
    match aggregateHit sphereHit world ray Interval.FORWARD with
    | .hit hit_record =>
      getRayColor world ⟨hit_record.point, Vec3.random_on_hemisphere (rnd 0) hit_record.normal⟩
        (depth - 1) (fun n => rnd (n + 1)) * (0.5 : ℝ)
    | .miss => background ray
termination_by (depth + 1).toNat
decreasing_by simp_wf; omega

/-- `Camera` from `src/camera.rs` (`aspect_ratio` renamed to dodge a
lexical restriction of the verification toolchain). -/
structure Camera where
  image_height : ℤ
  image_width : ℤ
  aspectRatio : ℝ
  center : Vec3
  pixel00_loc : Vec3
  pixel_delta_u : Vec3
  pixel_delta_v : Vec3
  samples_per_pixel : ℤ
  max_depth : ℤ

/-- `Camera::new`: the fixed default 512×512 camera with its viewport-derived
pixel grid. -/
def cameraNew : Camera :=
  let image_height : ℤ := 512
  let image_width : ℤ := 512
  let center := Vec3.new 0 0 0
  let focal_length : ℝ := 1.0
  let vh : ℝ := 2.0
  let vw : ℝ := vh * (image_width : ℝ) / (image_height : ℝ)
  let viewport_u := Vec3.new vw 0 0
  let viewport_v := Vec3.new 0 (-vh) 0
  let pixel_delta_u := viewport_u / (image_width : ℝ)
  let pixel_delta_v := viewport_v / (image_height : ℝ)
  let viewport_upper_left :=
    center - Vec3.new 0 0 focal_length - viewport_u / (2 : ℝ) - viewport_v / (2 : ℝ)
  let pixel00_loc := viewport_upper_left + (pixel_delta_u + pixel_delta_v) * (0.5 : ℝ)
  { image_height := image_height, image_width := image_width, aspectRatio := 1.0,
    center := center, pixel00_loc := pixel00_loc, pixel_delta_u := pixel_delta_u,
    pixel_delta_v := pixel_delta_v, samples_per_pixel := 10, max_depth := 50 }

/-- The random draws consumed by one `render_pixel` call: per sample `s`, the
two jitter draws `rng.gen_range(-0.5..0.5)` and the unit-sphere draws of the
scatter recursion. -/
structure RngP where
  nx : ℕ → ℝ
  ny : ℕ → ℝ
  dr : ℕ → ℕ → Vec3

/-- The sample accumulation loop of `Camera::render_pixel`: summing
`ray_color` over `n` jittered samples in source order. -/
def sampleLoop (cam : Camera) (world : List Primitive) (rng : RngP) (pixel_center : Vec3) :
    ℕ → Vec3
  | 0 => Vec3.new 0 0 0
  | s + 1 =>
    let x_noise := rng.nx s
    let y_noise := rng.ny s
    let new_pixel_center :=
      pixel_center + cam.pixel_delta_u * x_noise + cam.pixel_delta_v * y_noise
    let ray_dir := new_pixel_center - cam.center
    sampleLoop cam world rng pixel_center s +
      rayColor world ⟨cam.center, ray_dir⟩ cam.max_depth (rng.dr s)

/-- `Camera::render_pixel` from `src/camera.rs`. -/
def renderPixel (cam : Camera) (world : List Primitive) (rng : RngP) (i j : ℤ) : Vec3 :=
  let pixel_center :=
    cam.pixel00_loc + cam.pixel_delta_u * (i : ℝ) + cam.pixel_delta_v * (j : ℝ)
  sampleLoop cam world rng pixel_center cam.samples_per_pixel.toNat /
    (cam.samples_per_pixel : ℝ)

/-- Store one pixel's three channels at `base`, `base+1`, `base+2` of a flat
buffer, as the three `local_buf[...] = c.*()` stores do. -/
def pixWrite (buf : ℤ → ℝ) (base : ℤ) (c : Vec3) : ℤ → ℝ :=
  fun i => if i = base then c.x else if i = base + 1 then c.y else if i = base + 2 then c.z
    else buf i

/-- The inner `for x in 0..width` loop of a band worker: fill row-local
offsets `y*block_size + x*3 + k` of the band buffer with `pixel x`. -/
def xLoop (pixel : ℤ → Vec3) (rowbase : ℤ) : ℕ → (ℤ → ℝ) → (ℤ → ℝ)
  | 0, buf => buf
  | x + 1, buf => pixWrite (xLoop pixel rowbase x buf) (rowbase + 3 * (x : ℤ)) (pixel (x : ℤ))

/-- The `for y in 0..block_height` loop of a band worker over its local
buffer (`block_size` is the row stride `width*3`; `pixel x y` is the color
computed for column `x` of band-local row `y`). -/
def yLoop (pixel : ℤ → ℤ → Vec3) (block_size : ℤ) (width : ℕ) : ℕ → (ℤ → ℝ) → (ℤ → ℝ)
  | 0, buf => buf
  | y + 1, buf =>
    xLoop (fun x => pixel x (y : ℤ)) ((y : ℤ) * block_size) width
      (yLoop pixel block_size width y buf)

/-- One band worker's local buffer (`local_buf`), filled from an all-zero
vector of length `block_height * block_size`. -/
def localBand (pixel : ℤ → ℤ → Vec3) (block_size : ℤ) (width block_height : ℕ) : ℤ → ℝ :=
  yLoop pixel block_size width block_height (fun _ => 0)

/-- The single locked bulk copy
`buf[block*bh*bs .. (block+1)*bh*bs].copy_from_slice(&local_buf)`. -/
def bandCopy (global locb : ℤ → ℝ) (off len : ℤ) : ℤ → ℝ :=
  fun i => if off ≤ i ∧ i < off + len then locb (i - off) else global i

/-- The `for j in 0..y_blocks` spawn/join structure: the bands write disjoint
regions of the shared buffer, so the joined result equals the sequential
composition of the per-band bulk copies.  `pixel b x y` is the color the
worker of band `b` computes for column `x`, band-local row `y`. -/
def blockLoop (pixel : ℤ → ℤ → ℤ → Vec3) (block_height block_size : ℤ) (width : ℕ) :
    ℕ → (ℤ → ℝ) → (ℤ → ℝ)
  | 0, buf => buf
  | b + 1, buf =>
    bandCopy (blockLoop pixel block_height block_size width b buf)
      (localBand (pixel (b : ℤ)) block_size width block_height.toNat)
      ((b : ℤ) * block_height * block_size) (block_height * block_size)

/-- The shared framebuffer produced by `Camera::parallel_render`
(`src/camera.rs`), before string conversion: initialized to `0.0`, then each
band worker renders with a **freshly constructed default camera**
(`let camera = Camera::new();` inside the spawned closure) and copies its
band in.  `rngs b y x` supplies the random draws the band-`b` worker uses
for the pixel at band-local row `y`, column `x`. -/
def parallelRenderBuf (cam : Camera) (world : List Primitive)
    (rngs : ℤ → ℤ → ℤ → RngP) (y_blocks : ℤ) : ℤ → ℝ :=
  let block_height := cam.image_height / y_blocks
  let block_size := cam.image_width * 3
  blockLoop
    (fun b x y => renderPixel cameraNew world (rngs b y x) x (b * block_height + y))
    block_height block_size cam.image_width.toNat y_blocks.toNat (fun _ => 0)

/-- Rust `f64::trunc` (round toward zero) composed with the cast to `i64`. -/
def rtrunc (x : ℝ) : ℤ := if 0 ≤ x then ⌊x⌋ else ⌈x⌉

/-- `liner_to_gamma` from `src/util.rs`. -/
def liner_to_gamma (x : ℝ) : ℝ := if x > 0 then Real.sqrt x else 0

/-- `write_color` from `src/util.rs`: the `"r g b "` triple appended per
pixel (gamma-encoded, scaled by 255 and truncated). -/
def write_color (c : Vec3) : String :=
  toString (rtrunc (255 * liner_to_gamma c.x)) ++ " " ++
    toString (rtrunc (255 * liner_to_gamma c.y)) ++ " " ++
    toString (rtrunc (255 * liner_to_gamma c.z)) ++ " "

/-- The `for i in 0..image_width` column loop of the string assembly. -/
def rowString (pix : ℤ → Vec3) : ℕ → String
  | 0 => ""
  | i + 1 => rowString pix i ++ write_color (pix (i : ℤ))

/-- The `for j in 0..image_height` row loop of the string assembly, with
`write_new_line` after each row. -/
def bodyString (pix : ℤ → ℤ → Vec3) (width : ℕ) : ℕ → String
  | 0 => ""
  | j + 1 => bodyString pix width j ++ rowString (fun i => pix i (j : ℤ)) width ++ "\n"

/-- `Camera::render` from `src/camera.rs`: header `"P3\n{w} {h}\n255\n"`
followed by the row-major pixel triples.  Its inline per-pixel sampling loop
is the body of `render_pixel`, so the pixel colors are `renderPixel`
values; `rngs i j` supplies the draws consumed at pixel `(i, j)`. -/
def renderString (cam : Camera) (world : List Primitive) (rngs : ℤ → ℤ → RngP) : String :=
  "P3\n" ++ toString cam.image_width ++ " " ++ toString cam.image_height ++ "\n255\n" ++
    bodyString (fun i j => renderPixel cam world (rngs i j) i j)
      cam.image_width.toNat cam.image_height.toNat

/-- The string `Camera::parallel_render` returns: note the header is
`format!("P3\n{} {}\n255\n", self.image_width, self.image_width)` — the
image **width twice** — and the body reads the shared framebuffer back in
row-major order. -/
def parallelRenderString (cam : Camera) (world : List Primitive)
    (rngs : ℤ → ℤ → ℤ → RngP) (y_blocks : ℤ) : String :=
  let block_size := cam.image_width * 3
  let buf := parallelRenderBuf cam world rngs y_blocks
  "P3\n" ++ toString cam.image_width ++ " " ++ toString cam.image_width ++ "\n255\n" ++
    bodyString
      (fun i j => Vec3.new (buf (j * block_size + i * 3)) (buf (j * block_size + i * 3 + 1))
        (buf (j * block_size + i * 3 + 2)))
      cam.image_width.toNat cam.image_height.toNat

/-! ### Scaffolding: the named local quantities of `Sphere::hit` and
`Triangle::hit`, and unfolding lemmas phrased through them. -/

/-- `oc = center - origin` in `Sphere::hit`. -/
def sOC (s : Sphere) (ray : Ray) : Vec3 := s.center - ray.origin

/-- `a = ray.dir.length_squared()` in `Sphere::hit`. -/
def sA (ray : Ray) : ℝ := ray.dir.length_squared

/-- `h = dot(ray.dir, oc)` in `Sphere::hit`. -/
def sH (s : Sphere) (ray : Ray) : ℝ := Vec3.dot ray.dir (sOC s ray)

/-- `c = oc.length_squared() - radius²` in `Sphere::hit`. -/
def sC (s : Sphere) (ray : Ray) : ℝ := (sOC s ray).length_squared - s.radius * s.radius

/-- The discriminant `h*h - a*c` of `Sphere::hit`. -/
def sDisc (s : Sphere) (ray : Ray) : ℝ := sH s ray * sH s ray - sA ray * sC s ray

/-- The smaller candidate root `(h - √disc)/a`. -/
def sRoot1 (s : Sphere) (ray : Ray) : ℝ :=
  (sH s ray - Real.sqrt (sDisc s ray)) / sA ray

/-- The larger candidate root `(h + √disc)/a`. -/
def sRoot2 (s : Sphere) (ray : Ray) : ℝ :=
  (sH s ray + Real.sqrt (sDisc s ray)) / sA ray

lemma sphereHit_def (s : Sphere) (ray : Ray) (I : Interval) :
    sphereHit s ray I =
      if sDisc s ray < 0 then .miss
      else if I.surrounds (sRoot1 s ray) then .hit (sphereRecord s ray (sRoot1 s ray))
      else if I.surrounds (sRoot2 s ray) then .hit (sphereRecord s ray (sRoot2 s ray))
      else .miss := rfl

lemma sphereRecord_t (s : Sphere) (ray : Ray) (root : ℝ) :
    (sphereRecord s ray root).t = root := by
  simp only [sphereRecord, HitRecord.set_face_normal]
  split <;> rfl

lemma sphereRecord_point (s : Sphere) (ray : Ray) (root : ℝ) :
    (sphereRecord s ray root).point = ray.at' root := by
  simp only [sphereRecord, HitRecord.set_face_normal]
  split <;> rfl

/-- `normal = cross(ab, ac).unit()` in `Triangle::hit`. -/
def tNormal (tr : Triangle) : Vec3 := (Vec3.cross (tr.b - tr.a) (tr.c - tr.a)).unit

/-- `det_a = det(-dir, ab, ac)` in `Triangle::hit`. -/
def tDetA (tr : Triangle) (ray : Ray) : ℝ :=
  Vec3.det (-ray.dir) (tr.b - tr.a) (tr.c - tr.a)

/-- The solved ray parameter `t` of `Triangle::hit`. -/
def tT (tr : Triangle) (ray : Ray) : ℝ :=
  Vec3.det (ray.origin - tr.a) (tr.b - tr.a) (tr.c - tr.a) / tDetA tr ray

/-- The barycentric coordinate `u` of `Triangle::hit`. -/
def tU (tr : Triangle) (ray : Ray) : ℝ :=
  Vec3.det (-ray.dir) (ray.origin - tr.a) (tr.c - tr.a) / tDetA tr ray

/-- The barycentric coordinate `v` of `Triangle::hit`. -/
def tV (tr : Triangle) (ray : Ray) : ℝ :=
  Vec3.det (-ray.dir) (tr.b - tr.a) (ray.origin - tr.a) / tDetA tr ray

/-- The hit record built by `Triangle::hit` on success. -/
def triangleRecord (tr : Triangle) (ray : Ray) : HitRecord :=
  HitRecord.set_face_normal
    { t := tT tr ray, point := ray.at' (tT tr ray), normal := Vec3.EMPTY,
      front_face := false, material := tr.material } ray (tNormal tr)

lemma triangleHit_def (tr : Triangle) (ray : Ray) (I : Interval) :
    triangleHit tr ray I =
      if Vec3.dot ray.dir (tNormal tr) = 0 then .miss
      else if tU tr ray < 0 ∨ tV tr ray < 0 ∨ tU tr ray + tV tr ray > 1 ∨
          ¬ I.contains (tT tr ray) then .miss
      else .hit (triangleRecord tr ray) := rfl

lemma triangleRecord_t (tr : Triangle) (ray : Ray) :
    (triangleRecord tr ray).t = tT tr ray := by
  simp only [triangleRecord, HitRecord.set_face_normal]
  split <;> rfl

lemma length_squared_nonneg (v : Vec3) : 0 ≤ v.length_squared := by
  have hx := mul_self_nonneg v.x
  have hy := mul_self_nonneg v.y
  have hz := mul_self_nonneg v.z
  unfold Vec3.length_squared
  linarith

lemma sRoot1_le_sRoot2 (s : Sphere) (ray : Ray) : sRoot1 s ray ≤ sRoot2 s ray := by
  have hs := Real.sqrt_nonneg (sDisc s ray)
  have ha := length_squared_nonneg ray.dir
  unfold sRoot1 sRoot2 sA
  rcases eq_or_lt_of_le ha with h | h
  · rw [← h, div_zero, div_zero]
  · exact (div_le_div_iff_of_pos_right h).mpr (by linarith)

/-! ### The aggregation scan: shrink-compatibility of each primitive's `hit`
and the resulting equivalence with the exhaustive nearest-hit reference. -/

/-- Shrink-compatibility of one element's `hit` with respect to raising or
lowering the upper interval bound: a hit found with the shrunken interval is
exactly the hit of the original interval, and a hit of the original interval
that lies strictly below the shrunken bound is still found. -/
def GoodHit (hitf : α → Ray → Interval → HitResult) (p : α) (ray : Ray) : Prop :=
  ∀ (imin c imax : EReal) (rec : HitRecord), c ≤ imax →
    (hitf p ray ⟨imin, c⟩ = .hit rec →
      hitf p ray ⟨imin, imax⟩ = .hit rec ∧ (rec.t : EReal) ≤ c) ∧
    (hitf p ray ⟨imin, imax⟩ = .hit rec → (rec.t : EReal) < c →
      hitf p ray ⟨imin, c⟩ = .hit rec)

lemma sphereHit_good (s : Sphere) (ray : Ray) : GoodHit sphereHit s ray := by
  intro imin c imax rec hc
  by_cases hd : sDisc s ray < 0
  · constructor <;> intro h <;> simp [sphereHit_def, hd] at h
  have h12 : (sRoot1 s ray : EReal) ≤ (sRoot2 s ray : EReal) :=
    EReal.coe_le_coe_iff.mpr (sRoot1_le_sRoot2 s ray)
  constructor
  · intro h
    rw [sphereHit_def, if_neg hd] at h
    by_cases h1 : Interval.surrounds ⟨imin, c⟩ (sRoot1 s ray)
    · rw [if_pos h1] at h
      have hrec : rec = sphereRecord s ray (sRoot1 s ray) := by
        cases h; rfl
      have h1x : Interval.surrounds ⟨imin, imax⟩ (sRoot1 s ray) :=
        ⟨h1.1, lt_of_lt_of_le h1.2 hc⟩
      refine ⟨by rw [sphereHit_def, if_neg hd, if_pos h1x, hrec], ?_⟩
      rw [hrec, sphereRecord_t]
      exact le_of_lt h1.2
    · rw [if_neg h1] at h
      by_cases h2 : Interval.surrounds ⟨imin, c⟩ (sRoot2 s ray)
      · rw [if_pos h2] at h
        have hrec : rec = sphereRecord s ray (sRoot2 s ray) := by
          cases h; rfl
        have hr1c : (sRoot1 s ray : EReal) < c := lt_of_le_of_lt h12 h2.2
        have hr1min : ¬ (imin < (sRoot1 s ray : EReal)) := by
          intro hmin
          exact h1 ⟨hmin, hr1c⟩
        have h1x : ¬ Interval.surrounds ⟨imin, imax⟩ (sRoot1 s ray) := by
          intro hx
          exact hr1min hx.1
        have h2x : Interval.surrounds ⟨imin, imax⟩ (sRoot2 s ray) :=
          ⟨h2.1, lt_of_lt_of_le h2.2 hc⟩
        refine ⟨by rw [sphereHit_def, if_neg hd, if_neg h1x, if_pos h2x, hrec], ?_⟩
        rw [hrec, sphereRecord_t]
        exact le_of_lt h2.2
      · rw [if_neg h2] at h
        exact absurd h (by simp)
  · intro h ht
    rw [sphereHit_def, if_neg hd] at h
    by_cases h1 : Interval.surrounds ⟨imin, imax⟩ (sRoot1 s ray)
    · rw [if_pos h1] at h
      have hrec : rec = sphereRecord s ray (sRoot1 s ray) := by
        cases h; rfl
      rw [hrec, sphereRecord_t] at ht
      have h1c : Interval.surrounds ⟨imin, c⟩ (sRoot1 s ray) := ⟨h1.1, ht⟩
      rw [sphereHit_def, if_neg hd, if_pos h1c, hrec]
    · rw [if_neg h1] at h
      by_cases h2 : Interval.surrounds ⟨imin, imax⟩ (sRoot2 s ray)
      · rw [if_pos h2] at h
        have hrec : rec = sphereRecord s ray (sRoot2 s ray) := by
          cases h; rfl
        rw [hrec, sphereRecord_t] at ht
        have hr1x : (sRoot1 s ray : EReal) < imax := lt_of_le_of_lt h12 h2.2
        have hr1min : ¬ (imin < (sRoot1 s ray : EReal)) := by
          intro hmin
          exact h1 ⟨hmin, hr1x⟩
        have h1c : ¬ Interval.surrounds ⟨imin, c⟩ (sRoot1 s ray) := by
          intro hx
          exact hr1min hx.1
        have h2c : Interval.surrounds ⟨imin, c⟩ (sRoot2 s ray) := ⟨h2.1, ht⟩
        rw [sphereHit_def, if_neg hd, if_neg h1c, if_pos h2c, hrec]
      · rw [if_neg h2] at h
        exact absurd h (by simp)

lemma triangleHit_good (tr : Triangle) (ray : Ray) : GoodHit triangleHit tr ray := by
  intro imin c imax rec hc
  by_cases hp : Vec3.dot ray.dir (tNormal tr) = 0
  · constructor <;> intro h <;> simp [triangleHit_def, hp] at h
  constructor
  · intro h
    rw [triangleHit_def, if_neg hp] at h
    by_cases hcond : tU tr ray < 0 ∨ tV tr ray < 0 ∨ tU tr ray + tV tr ray > 1 ∨
        ¬ Interval.contains ⟨imin, c⟩ (tT tr ray)
    · rw [if_pos hcond] at h
      exact HitResult.noConfusion h
    · rw [if_neg hcond] at h
      have hrec : triangleRecord tr ray = rec := by
        injection h
      push_neg at hcond
      obtain ⟨hu, hv, huv, hcont⟩ := hcond
      have hcx : Interval.contains ⟨imin, imax⟩ (tT tr ray) :=
        ⟨hcont.1, le_trans hcont.2 hc⟩
      have hnc : ¬ (tU tr ray < 0 ∨ tV tr ray < 0 ∨ tU tr ray + tV tr ray > 1 ∨
          ¬ Interval.contains ⟨imin, imax⟩ (tT tr ray)) := by
        push_neg
        exact ⟨hu, hv, huv, hcx⟩
      refine ⟨by rw [triangleHit_def, if_neg hp, if_neg hnc, hrec], ?_⟩
      rw [← hrec, triangleRecord_t]
      exact hcont.2
  · intro h ht
    rw [triangleHit_def, if_neg hp] at h
    by_cases hcond : tU tr ray < 0 ∨ tV tr ray < 0 ∨ tU tr ray + tV tr ray > 1 ∨
        ¬ Interval.contains ⟨imin, imax⟩ (tT tr ray)
    · rw [if_pos hcond] at h
      exact HitResult.noConfusion h
    · rw [if_neg hcond] at h
      have hrec : triangleRecord tr ray = rec := by
        injection h
      push_neg at hcond
      obtain ⟨hu, hv, huv, hcont⟩ := hcond
      rw [← hrec, triangleRecord_t] at ht
      have hcc : Interval.contains ⟨imin, c⟩ (tT tr ray) := ⟨hcont.1, le_of_lt ht⟩
      have hnc : ¬ (tU tr ray < 0 ∨ tV tr ray < 0 ∨ tU tr ray + tV tr ray > 1 ∨
          ¬ Interval.contains ⟨imin, c⟩ (tT tr ray)) := by
        push_neg
        exact ⟨hu, hv, huv, hcc⟩
      rw [triangleHit_def, if_neg hp, if_neg hnc, hrec]

lemma primitiveHit_good (p : Primitive) (ray : Ray) : GoodHit primitiveHit p ray := by
  cases p with
  | sphere s => exact sphereHit_good s ray
  | tri t => exact triangleHit_good t ray

lemma hitLoop_isSome {α : Type*} (hitf : α → Ray → Interval → HitResult) (ray : Ray)
    (imin : EReal) (ps : List α) :
    ∀ (r : HitRecord) (closest : EReal),
      ∃ r', hitLoop hitf ray imin ps (some r) closest = some r' := by
  induction ps with
  | nil =>
    intro r closest
    exact ⟨r, rfl⟩
  | cons p ps ih =>
    intro r closest
    cases hq : hitf p ray (Interval.new imin closest) with
    | hit temp =>
      simpa only [hitLoop, hq] using ih temp (temp.t : EReal)
    | miss =>
      simpa only [hitLoop, hq] using ih r closest

lemma hitLoop_none_iff {α : Type*} (hitf : α → Ray → Interval → HitResult) (ray : Ray)
    (imin imax : EReal) (ps : List α) :
    hitLoop hitf ray imin ps none imax = none ↔
      ∀ p ∈ ps, hitf p ray (Interval.new imin imax) = .miss := by
  induction ps with
  | nil => simp [hitLoop]
  | cons p ps ih =>
    cases hq : hitf p ray (Interval.new imin imax) with
    | hit temp =>
      simp only [hitLoop, hq]
      constructor
      · intro h
        obtain ⟨r', hr'⟩ := hitLoop_isSome hitf ray imin ps temp (temp.t : EReal)
        rw [hr'] at h
        exact Option.noConfusion h
      · intro h
        have hh := h p (List.mem_cons_self p ps)
        rw [hq] at hh
        exact HitResult.noConfusion hh
    | miss =>
      simp only [hitLoop, hq]
      rw [ih]
      constructor
      · intro h p' hp'
        rcases List.mem_cons.mp hp' with rfl | hmem
        · exact hq
        · exact h p' hmem
      · intro h p' hp'
        exact h p' (List.mem_cons_of_mem p hp')

/-- The scan invariant: starting from a state whose retained record realizes
`closest ≤ imax`, the final record is at most `closest`, comes from some
element's exhaustive query (or is the inherited record), and is a lower
bound on every element's exhaustive hit parameter. -/
lemma hitLoop_spec {α : Type*} (hitf : α → Ray → Interval → HitResult) (ray : Ray)
    (imin imax : EReal) (ps : List α) :
    (∀ p ∈ ps, GoodHit hitf p ray) →
    ∀ (best : Option HitRecord) (closest : EReal), closest ≤ imax →
      (∀ r, best = some r → (r.t : EReal) = closest) →
      ∀ rec, hitLoop hitf ray imin ps best closest = some rec →
        (rec.t : EReal) ≤ closest ∧
        (best = some rec ∨ ∃ p ∈ ps, hitf p ray ⟨imin, imax⟩ = .hit rec) ∧
        (∀ p ∈ ps, ∀ r', hitf p ray ⟨imin, imax⟩ = .hit r' → rec.t ≤ r'.t) := by
  induction ps with
  | nil =>
    intro _ best closest hc hbest rec hloop
    simp only [hitLoop] at hloop
    refine ⟨le_of_eq (hbest rec hloop), Or.inl hloop, ?_⟩
    intro p hp
    exact absurd hp (List.not_mem_nil p)
  | cons p ps ih =>
    intro hg best closest hc hbest rec hloop
    have hgp := hg p (List.mem_cons_self p ps)
    have hgps : ∀ q ∈ ps, GoodHit hitf q ray := fun q hq => hg q (List.mem_cons_of_mem p hq)
    cases hq : hitf p ray (Interval.new imin closest) with
    | hit temp =>
      simp only [hitLoop, hq] at hloop
      obtain ⟨hE, htc⟩ := (hgp imin closest imax temp hc).1 hq
      obtain ⟨h1, h2, h3⟩ :=
        ih hgps (some temp) (temp.t : EReal) (le_trans htc hc)
          (fun r hr => by cases hr; rfl) rec hloop
      refine ⟨le_trans h1 htc, ?_, ?_⟩
      · rcases h2 with h2 | ⟨q, hqmem, hqhit⟩
        · right
          refine ⟨p, List.mem_cons_self p ps, ?_⟩
          cases h2
          exact hE
        · exact Or.inr ⟨q, List.mem_cons_of_mem p hqmem, hqhit⟩
      · intro q hqmem r' hr'
        rcases List.mem_cons.mp hqmem with rfl | hmem
        · rw [hE] at hr'
          have heq : temp = r' := by injection hr'
          rw [← heq]
          exact EReal.coe_le_coe_iff.mp h1
        · exact h3 q hmem r' hr'
    | miss =>
      simp only [hitLoop, hq] at hloop
      obtain ⟨h1, h2, h3⟩ := ih hgps best closest hc hbest rec hloop
      refine ⟨h1, ?_, ?_⟩
      · rcases h2 with h2 | ⟨q, hqmem, hqhit⟩
        · exact Or.inl h2
        · exact Or.inr ⟨q, List.mem_cons_of_mem p hqmem, hqhit⟩
      · intro q hqmem r' hr'
        rcases List.mem_cons.mp hqmem with rfl | hmem
        · by_contra hlt
          push_neg at hlt
          have hrc : (r'.t : EReal) < closest :=
            lt_of_lt_of_le (EReal.coe_lt_coe_iff.mpr hlt) h1
          have hshrunk : hitf q ray (Interval.new imin closest) = HitResult.hit r' :=
            (hgp imin closest imax r' hc).2 hr' hrc
          rw [hq] at hshrunk
          exact HitResult.noConfusion hshrunk
        · exact h3 q hmem r' hr'

/-- The aggregate characterization: `aggregateHit` misses exactly when every
element's exhaustive query misses, and any returned record is some element's
exhaustive record of globally minimal `t`. -/
lemma aggregateHit_spec {α : Type*} (hitf : α → Ray → Interval → HitResult) (ray : Ray)
    (I : Interval) (items : List α) (hg : ∀ p ∈ items, GoodHit hitf p ray) :
    (aggregateHit hitf items ray I = .miss ↔ ∀ p ∈ items, hitf p ray I = .miss) ∧
    (∀ rec, aggregateHit hitf items ray I = .hit rec →
      (∃ p ∈ items, hitf p ray I = .hit rec) ∧
      ∀ p ∈ items, ∀ r', hitf p ray I = .hit r' → rec.t ≤ r'.t) := by
  have hmiss : aggregateHit hitf items ray I = .miss ↔
      hitLoop hitf ray I.min items none I.max = none := by
    unfold aggregateHit
    cases hl : hitLoop hitf ray I.min items none I.max with
    | some r => simp [hl]
    | none => simp [hl]
  constructor
  · exact hmiss.trans (hitLoop_none_iff hitf ray I.min I.max items)
  · intro rec hrec
    have hl : hitLoop hitf ray I.min items none I.max = some rec := by
      cases hl0 : hitLoop hitf ray I.min items none I.max with
      | some r =>
        have hagg : aggregateHit hitf items ray I = .hit r := by
          unfold aggregateHit
          rw [hl0]
        rw [hagg] at hrec
        have hr : r = rec := by injection hrec
        exact congrArg some hr
      | none =>
        have hagg : aggregateHit hitf items ray I = .miss := by
          unfold aggregateHit
          rw [hl0]
        rw [hagg] at hrec
        exact HitResult.noConfusion hrec
    obtain ⟨h1, h2, h3⟩ :=
      hitLoop_spec hitf ray I.min I.max items hg none I.max le_rfl
        (fun r hr => Option.noConfusion hr) rec hl
    rcases h2 with h2 | h2
    · exact Option.noConfusion h2
    · exact ⟨h2, h3⟩

/-! ### Case lemmas for the two primitive `hit` functions. -/

lemma sphereHit_miss_disc (s : Sphere) (ray : Ray) (I : Interval)
    (hd : sDisc s ray < 0) : sphereHit s ray I = .miss := by
  rw [sphereHit_def, if_pos hd]

lemma sphereHit_hit_root1 (s : Sphere) (ray : Ray) (I : Interval)
    (hd : 0 ≤ sDisc s ray) (h1 : I.surrounds (sRoot1 s ray)) :
    sphereHit s ray I = .hit (sphereRecord s ray (sRoot1 s ray)) := by
  rw [sphereHit_def, if_neg (not_lt.mpr hd), if_pos h1]

lemma sphereHit_hit_root2 (s : Sphere) (ray : Ray) (I : Interval)
    (hd : 0 ≤ sDisc s ray) (h1 : ¬ I.surrounds (sRoot1 s ray))
    (h2 : I.surrounds (sRoot2 s ray)) :
    sphereHit s ray I = .hit (sphereRecord s ray (sRoot2 s ray)) := by
  rw [sphereHit_def, if_neg (not_lt.mpr hd), if_neg h1, if_pos h2]

lemma sphereHit_miss_roots (s : Sphere) (ray : Ray) (I : Interval)
    (h1 : ¬ I.surrounds (sRoot1 s ray)) (h2 : ¬ I.surrounds (sRoot2 s ray)) :
    sphereHit s ray I = .miss := by
  rw [sphereHit_def]
  split_ifs with hd
  · rfl
  · rfl

lemma sphereHit_hit_elim (s : Sphere) (ray : Ray) (I : Interval) (rec : HitRecord)
    (h : sphereHit s ray I = .hit rec) :
    0 ≤ sDisc s ray ∧
      ((I.surrounds (sRoot1 s ray) ∧ rec = sphereRecord s ray (sRoot1 s ray)) ∨
       (¬ I.surrounds (sRoot1 s ray) ∧ I.surrounds (sRoot2 s ray) ∧
         rec = sphereRecord s ray (sRoot2 s ray))) := by
  rw [sphereHit_def] at h
  by_cases hd : sDisc s ray < 0
  · rw [if_pos hd] at h
    exact HitResult.noConfusion h
  rw [if_neg hd] at h
  refine ⟨not_lt.mp hd, ?_⟩
  by_cases h1 : I.surrounds (sRoot1 s ray)
  · rw [if_pos h1] at h
    have := HitResult.hit.inj h
    exact Or.inl ⟨h1, this.symm⟩
  rw [if_neg h1] at h
  by_cases h2 : I.surrounds (sRoot2 s ray)
  · rw [if_pos h2] at h
    have := HitResult.hit.inj h
    exact Or.inr ⟨h1, h2, this.symm⟩
  · rw [if_neg h2] at h
    exact HitResult.noConfusion h

lemma triangleHit_miss_parallel (tr : Triangle) (ray : Ray) (I : Interval)
    (hp : Vec3.dot ray.dir (tNormal tr) = 0) : triangleHit tr ray I = .miss := by
  rw [triangleHit_def, if_pos hp]

lemma triangleHit_miss_cond (tr : Triangle) (ray : Ray) (I : Interval)
    (hc : tU tr ray < 0 ∨ tV tr ray < 0 ∨ tU tr ray + tV tr ray > 1 ∨
      ¬ I.contains (tT tr ray)) : triangleHit tr ray I = .miss := by
  rw [triangleHit_def]
  split_ifs with hp
  · rfl
  · rfl

lemma triangleHit_hit (tr : Triangle) (ray : Ray) (I : Interval)
    (hp : Vec3.dot ray.dir (tNormal tr) ≠ 0) (hu : 0 ≤ tU tr ray) (hv : 0 ≤ tV tr ray)
    (huv : tU tr ray + tV tr ray ≤ 1) (hc : I.contains (tT tr ray)) :
    triangleHit tr ray I = .hit (triangleRecord tr ray) := by
  have hnc : ¬ (tU tr ray < 0 ∨ tV tr ray < 0 ∨ tU tr ray + tV tr ray > 1 ∨
      ¬ I.contains (tT tr ray)) := by
    push_neg
    exact ⟨hu, hv, huv, hc⟩
  rw [triangleHit_def, if_neg hp, if_neg hnc]

lemma triangleHit_hit_elim (tr : Triangle) (ray : Ray) (I : Interval) (rec : HitRecord)
    (h : triangleHit tr ray I = .hit rec) :
    Vec3.dot ray.dir (tNormal tr) ≠ 0 ∧ 0 ≤ tU tr ray ∧ 0 ≤ tV tr ray ∧
      tU tr ray + tV tr ray ≤ 1 ∧ I.contains (tT tr ray) ∧
      rec = triangleRecord tr ray := by
  rw [triangleHit_def] at h
  by_cases hp : Vec3.dot ray.dir (tNormal tr) = 0
  · rw [if_pos hp] at h
    exact HitResult.noConfusion h
  rw [if_neg hp] at h
  by_cases hcond : tU tr ray < 0 ∨ tV tr ray < 0 ∨ tU tr ray + tV tr ray > 1 ∨
      ¬ I.contains (tT tr ray)
  · rw [if_pos hcond] at h
    exact HitResult.noConfusion h
  · rw [if_neg hcond] at h
    push_neg at hcond
    obtain ⟨hu, hv, huv, hcont⟩ := hcond
    exact ⟨hp, hu, hv, huv, hcont, (HitResult.hit.inj h).symm⟩

/-! ### Lower bound on accepted parameters (for the forward-epsilon claim). -/

lemma sphereHit_min_lt (s : Sphere) (ray : Ray) (I : Interval) (rec : HitRecord)
    (h : sphereHit s ray I = .hit rec) : I.min < (rec.t : EReal) := by
  obtain ⟨_, h1 | h2⟩ := sphereHit_hit_elim s ray I rec h
  · rw [h1.2, sphereRecord_t]
    exact h1.1.1
  · rw [h2.2.2, sphereRecord_t]
    exact h2.2.1.1

lemma triangleHit_min_le (tr : Triangle) (ray : Ray) (I : Interval) (rec : HitRecord)
    (h : triangleHit tr ray I = .hit rec) : I.min ≤ (rec.t : EReal) := by
  obtain ⟨_, _, _, _, hcont, hrec⟩ := triangleHit_hit_elim tr ray I rec h
  rw [hrec, triangleRecord_t]
  exact hcont.1

lemma primitiveHit_min_le (p : Primitive) (ray : Ray) (I : Interval) (rec : HitRecord)
    (h : primitiveHit p ray I = .hit rec) : I.min ≤ (rec.t : EReal) := by
  cases p with
  | sphere s => exact le_of_lt (sphereHit_min_lt s ray I rec h)
  | tri t => exact triangleHit_min_le t ray I rec h

lemma hitLoop_min_le {α : Type*} (hitf : α → Ray → Interval → HitResult) (ray : Ray)
    (imin : EReal)
    (hlb : ∀ p closest rec, hitf p ray (Interval.new imin closest) = .hit rec →
      imin ≤ (rec.t : EReal)) (ps : List α) :
    ∀ (best : Option HitRecord) (closest : EReal),
      (∀ r, best = some r → imin ≤ (r.t : EReal)) →
      ∀ rec, hitLoop hitf ray imin ps best closest = some rec → imin ≤ (rec.t : EReal) := by
  induction ps with
  | nil =>
    intro best closest hbest rec hloop
    simp only [hitLoop] at hloop
    exact hbest rec hloop
  | cons p ps ih =>
    intro best closest hbest rec hloop
    cases hq : hitf p ray (Interval.new imin closest) with
    | hit temp =>
      simp only [hitLoop, hq] at hloop
      exact ih (some temp) (temp.t : EReal)
        (fun r hr => by cases hr; exact hlb p closest temp hq) rec hloop
    | miss =>
      simp only [hitLoop, hq] at hloop
      exact ih best closest hbest rec hloop

lemma aggregateHit_some {α : Type*} (hitf : α → Ray → Interval → HitResult)
    (items : List α) (ray : Ray) (I : Interval) (rec : HitRecord)
    (hrec : aggregateHit hitf items ray I = .hit rec) :
    hitLoop hitf ray I.min items none I.max = some rec := by
  cases hl0 : hitLoop hitf ray I.min items none I.max with
  | some r =>
    have hagg : aggregateHit hitf items ray I = .hit r := by
      unfold aggregateHit
      rw [hl0]
    rw [hagg] at hrec
    exact congrArg some (HitResult.hit.inj hrec)
  | none =>
    have hagg : aggregateHit hitf items ray I = .miss := by
      unfold aggregateHit
      rw [hl0]
    rw [hagg] at hrec
    exact HitResult.noConfusion hrec

lemma hittableListHit_min_le (l : List Primitive) (ray : Ray) (I : Interval)
    (rec : HitRecord) (h : hittableListHit l ray I = .hit rec) :
    I.min ≤ (rec.t : EReal) := by
  have hl := aggregateHit_some primitiveHit l ray I rec h
  exact hitLoop_min_le primitiveHit ray I.min
    (fun p closest r hr => primitiveHit_min_le p ray (Interval.new I.min closest) r hr)
    l none I.max (fun r hr => Option.noConfusion hr) rec hl

/-! ### Helpers for evaluating the embedding at concrete inputs. -/

lemma surrounds_new_coe {a b x : ℝ} (h1 : a < x) (h2 : x < b) :
    (Interval.new (a : EReal) (b : EReal)).surrounds x :=
  ⟨EReal.coe_lt_coe_iff.mpr h1, EReal.coe_lt_coe_iff.mpr h2⟩

lemma surrounds_new_coe_top {a x : ℝ} (h1 : a < x) :
    (Interval.new (a : EReal) ⊤).surrounds x :=
  ⟨EReal.coe_lt_coe_iff.mpr h1, EReal.coe_lt_top x⟩

lemma not_surrounds_new_coe_top {a x : ℝ} (h1 : x ≤ a) :
    ¬ (Interval.new (a : EReal) ⊤).surrounds x := by
  intro h
  exact absurd (EReal.coe_lt_coe_iff.mp h.1) (not_lt.mpr h1)

lemma contains_new_coe {a b x : ℝ} (h1 : a ≤ x) (h2 : x ≤ b) :
    (Interval.new (a : EReal) (b : EReal)).contains x :=
  ⟨EReal.coe_le_coe_iff.mpr h1, EReal.coe_le_coe_iff.mpr h2⟩

lemma hitLoop_nil {α : Type*} {hitf : α → Ray → Interval → HitResult} {ray : Ray}
    {imin : EReal} {best : Option HitRecord} {closest : EReal} :
    hitLoop hitf ray imin [] best closest = best := rfl

lemma hitLoop_cons_hit {α : Type*} {hitf : α → Ray → Interval → HitResult} {ray : Ray}
    {imin : EReal} {p : α} {temp : HitRecord} (ps : List α) (best : Option HitRecord)
    {closest : EReal} (h : hitf p ray (Interval.new imin closest) = .hit temp) :
    hitLoop hitf ray imin (p :: ps) best closest =
      hitLoop hitf ray imin ps (some temp) (temp.t : EReal) := by
  simp only [hitLoop, h]

lemma hitLoop_cons_miss {α : Type*} {hitf : α → Ray → Interval → HitResult} {ray : Ray}
    {imin : EReal} {p : α} (ps : List α) (best : Option HitRecord)
    {closest : EReal} (h : hitf p ray (Interval.new imin closest) = .miss) :
    hitLoop hitf ray imin (p :: ps) best closest = hitLoop hitf ray imin ps best closest := by
  simp only [hitLoop, h]

lemma aggregateHit_of_loop {α : Type*} {hitf : α → Ray → Interval → HitResult}
    {items : List α} {ray : Ray} {imin imax : EReal} {rec : HitRecord}
    (h : hitLoop hitf ray imin items none imax = some rec) :
    aggregateHit hitf items ray (Interval.new imin imax) = .hit rec := by
  unfold aggregateHit
  dsimp only [Interval.new]
  rw [h]

/-! ## Claim theorems -/

/-- Claim C1: for every ray, query interval and ordered collection of
primitives, the aggregate hit (`HittableList::hit`, and `Polygon::hit` as the
identical aggregation over a mesh's triangles) returns the globally nearest
intersection: it misses exactly when every primitive, queried individually
with the original interval, misses; and any returned record is the record
some primitive returns for the original interval, with `t` minimal among all
individual hits. -/
theorem c1_aggregate_returns_nearest (ray : Ray) (interval : Interval) :
    (∀ l : List Primitive,
      (hittableListHit l ray interval = .miss ↔
        ∀ p ∈ l, primitiveHit p ray interval = .miss) ∧
      (∀ rec, hittableListHit l ray interval = .hit rec →
        (∃ p ∈ l, primitiveHit p ray interval = .hit rec) ∧
        ∀ p ∈ l, ∀ r', primitiveHit p ray interval = .hit r' → rec.t ≤ r'.t)) ∧
    (∀ triangles : List Triangle,
      (polygonHit triangles ray interval = .miss ↔
        ∀ tr ∈ triangles, triangleHit tr ray interval = .miss) ∧
      (∀ rec, polygonHit triangles ray interval = .hit rec →
        (∃ tr ∈ triangles, triangleHit tr ray interval = .hit rec) ∧
        ∀ tr ∈ triangles, ∀ r', triangleHit tr ray interval = .hit r' → rec.t ≤ r'.t)) := by
  constructor
  · intro l
    exact aggregateHit_spec primitiveHit ray interval l (fun p _ => primitiveHit_good p ray)
  · intro triangles
    exact aggregateHit_spec triangleHit ray interval triangles
      (fun tr _ => triangleHit_good tr ray)

/-- Closed witness for C1: a scene of two spheres on the `-z` axis, the
farther listed first.  The aggregate hit is the near sphere's record at
`t = 1`, and applying `c1_aggregate_returns_nearest` at this input discharges
its hypothesis and exhibits it as an individual primitive's hit. -/
theorem c1_witness :
    hittableListHit
        [Primitive.sphere ⟨⟨0, 0, -4⟩, 1, .lambertian Vec3.EMPTY⟩,
         Primitive.sphere ⟨⟨0, 0, -2⟩, 1, .lambertian Vec3.EMPTY⟩]
        ⟨⟨0, 0, 0⟩, ⟨0, 0, -1⟩⟩ (Interval.new ((0 : ℝ) : EReal) ((10 : ℝ) : EReal)) =
      .hit (sphereRecord ⟨⟨0, 0, -2⟩, 1, .lambertian Vec3.EMPTY⟩
        ⟨⟨0, 0, 0⟩, ⟨0, 0, -1⟩⟩ 1) ∧
    ∃ p ∈ [Primitive.sphere ⟨⟨0, 0, -4⟩, 1, .lambertian Vec3.EMPTY⟩,
         Primitive.sphere ⟨⟨0, 0, -2⟩, 1, .lambertian Vec3.EMPTY⟩],
      primitiveHit p ⟨⟨0, 0, 0⟩, ⟨0, 0, -1⟩⟩
          (Interval.new ((0 : ℝ) : EReal) ((10 : ℝ) : EReal)) =
        .hit (sphereRecord ⟨⟨0, 0, -2⟩, 1, .lambertian Vec3.EMPTY⟩
          ⟨⟨0, 0, 0⟩, ⟨0, 0, -1⟩⟩ 1) := by
  have hdF : sDisc ⟨⟨0, 0, -4⟩, 1, .lambertian Vec3.EMPTY⟩ ⟨⟨0, 0, 0⟩, ⟨0, 0, -1⟩⟩ = 1 := by
    simp [sDisc, sH, sA, sC, sOC, Vec3.dot, Vec3.sum, Vec3.length_squared]

  have hhF : sH ⟨⟨0, 0, -4⟩, 1, .lambertian Vec3.EMPTY⟩ ⟨⟨0, 0, 0⟩, ⟨0, 0, -1⟩⟩ = 4 := by
    simp [sH, sOC, Vec3.dot, Vec3.sum]
  have haA : sA (⟨⟨0, 0, 0⟩, ⟨0, 0, -1⟩⟩ : Ray) = 1 := by
    simp [sA, Vec3.length_squared]
  have hr1F : sRoot1 ⟨⟨0, 0, -4⟩, 1, .lambertian Vec3.EMPTY⟩ ⟨⟨0, 0, 0⟩, ⟨0, 0, -1⟩⟩ = 3 := by
    unfold sRoot1
    rw [hdF, Real.sqrt_one, hhF, haA]
    norm_num
  have hdN : sDisc ⟨⟨0, 0, -2⟩, 1, .lambertian Vec3.EMPTY⟩ ⟨⟨0, 0, 0⟩, ⟨0, 0, -1⟩⟩ = 1 := by
    simp [sDisc, sH, sA, sC, sOC, Vec3.dot, Vec3.sum, Vec3.length_squared]

  have hhN : sH ⟨⟨0, 0, -2⟩, 1, .lambertian Vec3.EMPTY⟩ ⟨⟨0, 0, 0⟩, ⟨0, 0, -1⟩⟩ = 2 := by
    simp [sH, sOC, Vec3.dot, Vec3.sum]
  have hr1N : sRoot1 ⟨⟨0, 0, -2⟩, 1, .lambertian Vec3.EMPTY⟩ ⟨⟨0, 0, 0⟩, ⟨0, 0, -1⟩⟩ = 1 := by
    unfold sRoot1
    rw [hdN, Real.sqrt_one, hhN, haA]
    norm_num
  have e1 : primitiveHit (Primitive.sphere ⟨⟨0, 0, -4⟩, 1, .lambertian Vec3.EMPTY⟩)
      ⟨⟨0, 0, 0⟩, ⟨0, 0, -1⟩⟩ (Interval.new ((0 : ℝ) : EReal) ((10 : ℝ) : EReal)) =
      .hit (sphereRecord ⟨⟨0, 0, -4⟩, 1, .lambertian Vec3.EMPTY⟩
        ⟨⟨0, 0, 0⟩, ⟨0, 0, -1⟩⟩ 3) := by
    have := sphereHit_hit_root1 ⟨⟨0, 0, -4⟩, 1, .lambertian Vec3.EMPTY⟩
      ⟨⟨0, 0, 0⟩, ⟨0, 0, -1⟩⟩ (Interval.new ((0 : ℝ) : EReal) ((10 : ℝ) : EReal))
      (by rw [hdF]; norm_num) (by rw [hr1F]; exact surrounds_new_coe (by norm_num) (by norm_num))
    rw [hr1F] at this
    exact this
  have e2 : primitiveHit (Primitive.sphere ⟨⟨0, 0, -2⟩, 1, .lambertian Vec3.EMPTY⟩)
      ⟨⟨0, 0, 0⟩, ⟨0, 0, -1⟩⟩ (Interval.new ((0 : ℝ) : EReal) ((3 : ℝ) : EReal)) =
      .hit (sphereRecord ⟨⟨0, 0, -2⟩, 1, .lambertian Vec3.EMPTY⟩
        ⟨⟨0, 0, 0⟩, ⟨0, 0, -1⟩⟩ 1) := by
    have := sphereHit_hit_root1 ⟨⟨0, 0, -2⟩, 1, .lambertian Vec3.EMPTY⟩
      ⟨⟨0, 0, 0⟩, ⟨0, 0, -1⟩⟩ (Interval.new ((0 : ℝ) : EReal) ((3 : ℝ) : EReal))
      (by rw [hdN]; norm_num) (by rw [hr1N]; exact surrounds_new_coe (by norm_num) (by norm_num))
    rw [hr1N] at this
    exact this
  have hl : hitLoop primitiveHit ⟨⟨0, 0, 0⟩, ⟨0, 0, -1⟩⟩ ((0 : ℝ) : EReal)
      [Primitive.sphere ⟨⟨0, 0, -4⟩, 1, .lambertian Vec3.EMPTY⟩,
       Primitive.sphere ⟨⟨0, 0, -2⟩, 1, .lambertian Vec3.EMPTY⟩]
      none ((10 : ℝ) : EReal) =
      some (sphereRecord ⟨⟨0, 0, -2⟩, 1, .lambertian Vec3.EMPTY⟩
        ⟨⟨0, 0, 0⟩, ⟨0, 0, -1⟩⟩ 1) := by
    rw [hitLoop_cons_hit _ _ e1, sphereRecord_t,
      hitLoop_cons_hit _ _ e2, hitLoop_nil]
  have heval := aggregateHit_of_loop hl
  refine ⟨heval, ?_⟩
  exact (((c1_aggregate_returns_nearest ⟨⟨0, 0, 0⟩, ⟨0, 0, -1⟩⟩
    (Interval.new ((0 : ℝ) : EReal) ((10 : ℝ) : EReal))).1
    [Primitive.sphere ⟨⟨0, 0, -4⟩, 1, .lambertian Vec3.EMPTY⟩,
     Primitive.sphere ⟨⟨0, 0, -2⟩, 1, .lambertian Vec3.EMPTY⟩]).2 _ heval).1

/-- Claim C2: `Sphere::hit` misses when the discriminant `h*h - a*c` is
negative; otherwise it accepts the smaller root `(h - √disc)/a` if the
interval strictly surrounds it, else the larger root `(h + √disc)/a` if
surrounded, else misses; on acceptance `t` is the chosen root, the point is
`ray.at(t)`, and the record is built by orienting the outward normal
`(point - center)/radius` via `set_face_normal`. -/
theorem c2_sphere_hit_characterization (s : Sphere) (ray : Ray) (I : Interval) :
    (sDisc s ray < 0 → sphereHit s ray I = .miss) ∧
    (0 ≤ sDisc s ray → I.surrounds (sRoot1 s ray) →
      sphereHit s ray I = .hit (sphereRecord s ray (sRoot1 s ray))) ∧
    (0 ≤ sDisc s ray → ¬ I.surrounds (sRoot1 s ray) → I.surrounds (sRoot2 s ray) →
      sphereHit s ray I = .hit (sphereRecord s ray (sRoot2 s ray))) ∧
    (¬ I.surrounds (sRoot1 s ray) → ¬ I.surrounds (sRoot2 s ray) →
      sphereHit s ray I = .miss) ∧
    (∀ rec, sphereHit s ray I = .hit rec →
      rec.t = (if I.surrounds (sRoot1 s ray) then sRoot1 s ray else sRoot2 s ray) ∧
      rec.point = ray.at' rec.t ∧
      rec = HitRecord.set_face_normal
        { t := rec.t, point := rec.point, normal := Vec3.EMPTY, front_face := false,
          material := s.material } ray ((rec.point - s.center) / s.radius)) := by
  refine ⟨sphereHit_miss_disc s ray I, sphereHit_hit_root1 s ray I,
    sphereHit_hit_root2 s ray I, sphereHit_miss_roots s ray I, ?_⟩
  intro rec h
  obtain ⟨_, ⟨h1, hrec⟩ | ⟨h1, h2, hrec⟩⟩ := sphereHit_hit_elim s ray I rec h
  · rw [hrec, sphereRecord_t, sphereRecord_point, if_pos h1]
    exact ⟨rfl, rfl, rfl⟩
  · rw [hrec, sphereRecord_t, sphereRecord_point, if_neg h1]
    exact ⟨rfl, rfl, rfl⟩

/-- Closed witness for C2: a sphere displaced perpendicularly to the ray
direction so that the discriminant is `-24 < 0`, giving a miss. -/
theorem c2_witness :
    sDisc ⟨⟨0, 5, 0⟩, 1, .lambertian Vec3.EMPTY⟩ ⟨⟨0, 0, 0⟩, ⟨1, 0, 0⟩⟩ < 0 ∧
    sphereHit ⟨⟨0, 5, 0⟩, 1, .lambertian Vec3.EMPTY⟩ ⟨⟨0, 0, 0⟩, ⟨1, 0, 0⟩⟩
      Interval.FORWARD = .miss := by
  have hd : sDisc ⟨⟨0, 5, 0⟩, 1, .lambertian Vec3.EMPTY⟩ ⟨⟨0, 0, 0⟩, ⟨1, 0, 0⟩⟩ = -24 := by
    simp [sDisc, sH, sA, sC, sOC, Vec3.dot, Vec3.sum, Vec3.length_squared]
    norm_num
  refine ⟨by rw [hd]; norm_num, ?_⟩
  exact (c2_sphere_hit_characterization ⟨⟨0, 5, 0⟩, 1, .lambertian Vec3.EMPTY⟩
    ⟨⟨0, 0, 0⟩, ⟨1, 0, 0⟩⟩ Interval.FORWARD).1 (by rw [hd]; norm_num)

/-- Claim C3: `Triangle::hit` misses exactly when the ray is parallel to the
plane by the exact test `dot(dir, unit plane normal) = 0`, or a Cramer
barycentric coordinate is negative, or `u + v > 1`, or the solved `t` fails
the closed `contains` test; otherwise it hits at parameter `t`. -/
theorem c3_triangle_hit_characterization (tr : Triangle) (ray : Ray) (I : Interval) :
    (triangleHit tr ray I = .miss ↔
      Vec3.dot ray.dir (tNormal tr) = 0 ∨ tU tr ray < 0 ∨ tV tr ray < 0 ∨
        tU tr ray + tV tr ray > 1 ∨ ¬ I.contains (tT tr ray)) ∧
    (∀ rec, triangleHit tr ray I = .hit rec →
      rec.t = tT tr ray ∧ rec = triangleRecord tr ray) := by
  constructor
  · constructor
    · intro h
      by_cases hp : Vec3.dot ray.dir (tNormal tr) = 0
      · exact Or.inl hp
      right
      by_cases hcond : tU tr ray < 0 ∨ tV tr ray < 0 ∨ tU tr ray + tV tr ray > 1 ∨
          ¬ I.contains (tT tr ray)
      · exact hcond
      · rw [triangleHit_def, if_neg hp, if_neg hcond] at h
        exact HitResult.noConfusion h
    · intro h
      rcases h with hp | hcond
      · exact triangleHit_miss_parallel tr ray I hp
      · exact triangleHit_miss_cond tr ray I hcond
  · intro rec h
    obtain ⟨_, _, _, _, _, hrec⟩ := triangleHit_hit_elim tr ray I rec h
    exact ⟨by rw [hrec, triangleRecord_t], hrec⟩

/-- Closed witness for C3: an axis-aligned triangle in the plane `z = -1`
and a ray running parallel to that plane; the exact-equality parallel test
fires and the triangle misses. -/
theorem c3_witness :
    Vec3.dot (⟨1, 0, 0⟩ : Vec3)
      (tNormal ⟨⟨0, 0, -1⟩, ⟨1, 0, -1⟩, ⟨0, 1, -1⟩, .lambertian Vec3.EMPTY⟩) = 0 ∧
    triangleHit ⟨⟨0, 0, -1⟩, ⟨1, 0, -1⟩, ⟨0, 1, -1⟩, .lambertian Vec3.EMPTY⟩
      ⟨⟨0, 0, 0⟩, ⟨1, 0, 0⟩⟩ Interval.FORWARD = .miss := by
  have hn : tNormal ⟨⟨0, 0, -1⟩, ⟨1, 0, -1⟩, ⟨0, 1, -1⟩, .lambertian Vec3.EMPTY⟩ =
      ⟨0, 0, 1⟩ := by
    simp [tNormal, Vec3.cross, Vec3.unit, Vec3.length, Vec3.length_squared]
  have hdot : Vec3.dot (⟨1, 0, 0⟩ : Vec3)
      (tNormal ⟨⟨0, 0, -1⟩, ⟨1, 0, -1⟩, ⟨0, 1, -1⟩, .lambertian Vec3.EMPTY⟩) = 0 := by
    rw [hn]
    simp [Vec3.dot, Vec3.sum]
  refine ⟨hdot, ?_⟩
  exact ((c3_triangle_hit_characterization
    ⟨⟨0, 0, -1⟩, ⟨1, 0, -1⟩, ⟨0, 1, -1⟩, .lambertian Vec3.EMPTY⟩
    ⟨⟨0, 0, 0⟩, ⟨1, 0, 0⟩⟩ Interval.FORWARD).1).mpr (Or.inl hdot)

/-- Claim C4: `Lambertian::scatter` always scatters (never absorbs) with
attenuation its albedo, substituting the hit normal for the outgoing
direction when `normal + draw` is near zero; `Metal::scatter`, with
`reflected = unit(reflect(dir, normal)) + fuzz * draw`, absorbs exactly when
`dot(reflected, normal) ≤ 0` and otherwise scatters with attenuation its
albedo. -/
theorem c4_scatter_characterization (ray : Ray) (rec : HitRecord) (draw : Vec3)
    (albedo : Vec3) (fuzz : ℝ) :
    (Material.scatter (.lambertian albedo) ray rec draw =
      .scatter ⟨rec.point, if (rec.normal + draw).near_zero then rec.normal
        else rec.normal + draw⟩ albedo) ∧
    (Material.scatter (.metal albedo fuzz) ray rec draw = .noScatter ↔
      Vec3.dot ((Vec3.reflect ray.dir rec.normal).unit + draw * fuzz) rec.normal ≤ 0) ∧
    (0 < Vec3.dot ((Vec3.reflect ray.dir rec.normal).unit + draw * fuzz) rec.normal →
      Material.scatter (.metal albedo fuzz) ray rec draw =
        .scatter ⟨rec.point, (Vec3.reflect ray.dir rec.normal).unit + draw * fuzz⟩ albedo) := by
  refine ⟨rfl, ⟨?_, ?_⟩, ?_⟩
  · intro h
    by_contra hpos
    push_neg at hpos
    simp only [Material.scatter, if_pos hpos] at h
    exact ScatterResult.noConfusion h
  · intro h
    simp only [Material.scatter, if_neg (not_lt.mpr h)]
  · intro h
    simp only [Material.scatter, if_pos h]

/-- Closed witness for C4: head-on reflection off an upward-facing surface
with zero fuzz; the reflected ray points along the normal, so metal
scattering succeeds, and the degenerate-direction substitution is exercised
on the Lambertian side with a draw that cancels the normal. -/
theorem c4_witness :
    0 < Vec3.dot ((Vec3.reflect (⟨0, 0, -1⟩ : Vec3) (⟨0, 0, 1⟩ : Vec3)).unit +
      (⟨0, 0, 0⟩ : Vec3) * (0 : ℝ)) ⟨0, 0, 1⟩ ∧
    Material.scatter (.metal ⟨1, 0, 0⟩ 0) ⟨⟨0, 0, 0⟩, ⟨0, 0, -1⟩⟩
        ⟨1, ⟨0, 0, 0⟩, ⟨0, 0, 1⟩, true, .lambertian Vec3.EMPTY⟩ ⟨0, 0, 0⟩ =
      .scatter ⟨⟨0, 0, 0⟩, (Vec3.reflect (⟨0, 0, -1⟩ : Vec3) (⟨0, 0, 1⟩ : Vec3)).unit +
        (⟨0, 0, 0⟩ : Vec3) * (0 : ℝ)⟩ ⟨1, 0, 0⟩ := by
  have hrefl : (Vec3.reflect (⟨0, 0, -1⟩ : Vec3) (⟨0, 0, 1⟩ : Vec3)).unit +
      (⟨0, 0, 0⟩ : Vec3) * (0 : ℝ) = ⟨0, 0, 1⟩ := by
    simp [Vec3.reflect, Vec3.unit, Vec3.dot, Vec3.sum, Vec3.length, Vec3.length_squared]
    norm_num
  have hdot : 0 < Vec3.dot ((Vec3.reflect (⟨0, 0, -1⟩ : Vec3) (⟨0, 0, 1⟩ : Vec3)).unit +
      (⟨0, 0, 0⟩ : Vec3) * (0 : ℝ)) ⟨0, 0, 1⟩ := by
    rw [hrefl]
    simp [Vec3.dot, Vec3.sum]
  exact ⟨hdot, (c4_scatter_characterization ⟨⟨0, 0, 0⟩, ⟨0, 0, -1⟩⟩
    ⟨1, ⟨0, 0, 0⟩, ⟨0, 0, 1⟩, true, .lambertian Vec3.EMPTY⟩ ⟨0, 0, 0⟩
    ⟨1, 0, 0⟩ 0).2.2 hdot⟩

/-! ### Geometry of accepted hit records (normals). -/

lemma length_squared_eq_zero {v : Vec3} : v.length_squared = 0 ↔ v = ⟨0, 0, 0⟩ := by
  constructor
  · intro h
    have hx0 := mul_self_nonneg v.x
    have hy0 := mul_self_nonneg v.y
    have hz0 := mul_self_nonneg v.z
    unfold Vec3.length_squared at h
    have hx : v.x = 0 := mul_self_eq_zero.mp (le_antisymm (by linarith) hx0)
    have hy : v.y = 0 := mul_self_eq_zero.mp (le_antisymm (by linarith) hy0)
    have hz : v.z = 0 := mul_self_eq_zero.mp (le_antisymm (by linarith) hz0)
    cases v
    simp_all
  · intro h
    subst h
    unfold Vec3.length_squared
    norm_num

lemma length_mul_self (v : Vec3) : v.length * v.length = v.length_squared :=
  Real.mul_self_sqrt (length_squared_nonneg v)

lemma length_squared_div (v : Vec3) (r : ℝ) :
    (v / r).length_squared = v.length_squared / (r * r) := by
  simp only [Vec3.sdiv_def]
  unfold Vec3.length_squared
  simp only [div_mul_div_comm, div_add_div_same]

lemma length_squared_neg (v : Vec3) : (-v).length_squared = v.length_squared := by
  simp only [Vec3.neg_def]
  unfold Vec3.length_squared
  ring

lemma dot_neg_right (a b : Vec3) : Vec3.dot a (-b) = -Vec3.dot a b := by
  simp only [Vec3.neg_def]
  unfold Vec3.dot Vec3.sum
  simp only [Vec3.mul_def]
  ring

/-- The unit vector of a nonzero vector has length one. -/
lemma unit_length_of_ne_zero {v : Vec3} (h : v ≠ ⟨0, 0, 0⟩) : v.unit.length = 1 := by
  have hlsq : v.length_squared ≠ 0 := fun h0 => h (length_squared_eq_zero.mp h0)
  have hone : v.unit.length_squared = 1 := by
    unfold Vec3.unit
    rw [length_squared_div, length_mul_self, div_self hlsq]
  show Real.sqrt v.unit.length_squared = 1
  rw [hone]
  exact Real.sqrt_one

/-- The unit vector of the zero vector is the zero vector (Lean's `x/0 = 0`
convention; in Rust this is a NaN vector, which likewise compares unequal in
every `<`/`==` test the code performs on it). -/
lemma unit_zero : (⟨0, 0, 0⟩ : Vec3).unit = ⟨0, 0, 0⟩ := by
  unfold Vec3.unit
  simp

lemma sphereRecord_normal (s : Sphere) (ray : Ray) (root : ℝ) :
    (sphereRecord s ray root).normal =
      if Vec3.dot ray.dir ((ray.at' root - s.center) / s.radius) < 0 then
        (ray.at' root - s.center) / s.radius
      else -((ray.at' root - s.center) / s.radius) := by
  simp only [sphereRecord, HitRecord.set_face_normal]
  split <;> rfl

lemma sphereRecord_front (s : Sphere) (ray : Ray) (root : ℝ) :
    ((sphereRecord s ray root).front_face = true ↔
      Vec3.dot ray.dir ((ray.at' root - s.center) / s.radius) < 0) := by
  simp only [sphereRecord, HitRecord.set_face_normal]
  split <;> rename_i hcond
  · exact iff_of_true rfl hcond
  · exact iff_of_false Bool.false_ne_true hcond

lemma triangleRecord_normal (tr : Triangle) (ray : Ray) :
    (triangleRecord tr ray).normal =
      if Vec3.dot ray.dir (tNormal tr) < 0 then tNormal tr else -(tNormal tr) := by
  simp only [triangleRecord, HitRecord.set_face_normal]
  split <;> rfl

lemma triangleRecord_front (tr : Triangle) (ray : Ray) :
    ((triangleRecord tr ray).front_face = true ↔ Vec3.dot ray.dir (tNormal tr) < 0) := by
  simp only [triangleRecord, HitRecord.set_face_normal]
  split <;> rename_i hcond
  · exact iff_of_true rfl hcond
  · exact iff_of_false Bool.false_ne_true hcond

/-- An accepted sphere root satisfies the quadratic exactly, so the hit point
lies exactly on the sphere. -/
lemma sRoot_on_sphere (s : Sphere) (ray : Ray) (root : ℝ) (hd : 0 ≤ sDisc s ray)
    (ha : sA ray ≠ 0) (hroot : root = sRoot1 s ray ∨ root = sRoot2 s ray) :
    (ray.at' root - s.center).length_squared = s.radius * s.radius := by
  have hq : Real.sqrt (sDisc s ray) * Real.sqrt (sDisc s ray) =
      sH s ray * sH s ray -
        sA ray * ((sOC s ray).length_squared - s.radius * s.radius) :=
    (Real.mul_self_sqrt hd).trans rfl
  have expand : (ray.at' root - s.center).length_squared
      = sA ray * (root * root) - 2 * sH s ray * root + (sOC s ray).length_squared := by
    unfold Ray.at' sA sH sOC Vec3.dot Vec3.sum Vec3.length_squared
    simp only [Vec3.add_def, Vec3.sub_def, Vec3.smul_def, Vec3.mul_def]
    ring
  rw [expand]
  apply mul_left_cancel₀ ha
  rcases hroot with h | h <;> subst h
  · have hra : sA ray * sRoot1 s ray = sH s ray - Real.sqrt (sDisc s ray) := by
      unfold sRoot1
      field_simp
    linear_combination
      (sA ray * sRoot1 s ray - sH s ray - Real.sqrt (sDisc s ray)) * hra + hq
  · have hra : sA ray * sRoot2 s ray = sH s ray + Real.sqrt (sDisc s ray) := by
      unfold sRoot2
      field_simp
    linear_combination
      (sA ray * sRoot2 s ray - sH s ray + Real.sqrt (sDisc s ray)) * hra + hq

/-- Normal invariants of every record `Sphere::hit` returns, for a
non-degenerate sphere and ray. -/
lemma sphereHit_record_props (s : Sphere) (ray : Ray) (I : Interval) (rec : HitRecord)
    (hr : s.radius ≠ 0) (hdir : ray.dir ≠ ⟨0, 0, 0⟩) (h : sphereHit s ray I = .hit rec) :
    rec.normal.length = 1 ∧ Vec3.dot ray.dir rec.normal ≤ 0 ∧
      (rec.front_face = true ↔ Vec3.dot ray.dir ((rec.point - s.center) / s.radius) < 0) := by
  have ha : sA ray ≠ 0 := fun h0 => hdir (length_squared_eq_zero.mp h0)
  obtain ⟨hd, hcase⟩ := sphereHit_hit_elim s ray I rec h
  have hroot : ∃ root, (root = sRoot1 s ray ∨ root = sRoot2 s ray) ∧
      rec = sphereRecord s ray root := by
    rcases hcase with ⟨_, hrec⟩ | ⟨_, _, hrec⟩
    · exact ⟨_, Or.inl rfl, hrec⟩
    · exact ⟨_, Or.inr rfl, hrec⟩
  obtain ⟨root, hor, hrec⟩ := hroot
  subst hrec
  have hos := sRoot_on_sphere s ray root hd ha hor
  have hlsq_out : ((ray.at' root - s.center) / s.radius).length_squared = 1 := by
    rw [length_squared_div, hos, div_self (mul_ne_zero hr hr)]
  refine ⟨?_, ?_, ?_⟩
  · rw [sphereRecord_normal]
    split
    · show Real.sqrt _ = 1
      rw [hlsq_out]
      exact Real.sqrt_one
    · show Real.sqrt _ = 1
      rw [length_squared_neg, hlsq_out]
      exact Real.sqrt_one
  · rw [sphereRecord_normal]
    split <;> rename_i hcond
    · exact le_of_lt hcond
    · rw [dot_neg_right]
      linarith [not_lt.mp hcond]
  · rw [sphereRecord_point]
    exact sphereRecord_front s ray root

/-- Normal invariants of every record `Triangle::hit` returns. -/
lemma triangleHit_record_props (tr : Triangle) (ray : Ray) (I : Interval)
    (rec : HitRecord) (h : triangleHit tr ray I = .hit rec) :
    rec.normal.length = 1 ∧ Vec3.dot ray.dir rec.normal < 0 ∧
      (rec.front_face = true ↔ Vec3.dot ray.dir (tNormal tr) < 0) := by
  obtain ⟨hp, _, _, _, _, hrec⟩ := triangleHit_hit_elim tr ray I rec h
  subst hrec
  have hcross : Vec3.cross (tr.b - tr.a) (tr.c - tr.a) ≠ ⟨0, 0, 0⟩ := by
    intro h0
    apply hp
    unfold tNormal
    rw [h0, unit_zero]
    unfold Vec3.dot Vec3.sum
    simp
  have hn1 : (tNormal tr).length = 1 := unit_length_of_ne_zero hcross
  refine ⟨?_, ?_, triangleRecord_front tr ray⟩
  · rw [triangleRecord_normal]
    split
    · exact hn1
    · show Real.sqrt _ = 1
      rw [length_squared_neg]
      exact hn1
  · rw [triangleRecord_normal]
    split <;> rename_i hcond
    · exact hcond
    · rw [dot_neg_right]
      have h0 : 0 < Vec3.dot ray.dir (tNormal tr) :=
        lt_of_le_of_ne (not_lt.mp hcond) (Ne.symm hp)
      linarith

/-- Counterexample to C5 as stated: a ray starting at a sphere's center hits
the back face (`front_face = false`), and the returned normal is oriented
*against* the ray — `dot(dir, normal) = -1 ≤ 0` — not `> 0` as the claim
requires for `front_face = false`. -/
theorem c5_counterexample :
    sphereHit ⟨⟨0, 0, 0⟩, 1, .lambertian Vec3.EMPTY⟩ ⟨⟨0, 0, 0⟩, ⟨0, 0, -1⟩⟩
        Interval.FORWARD =
      .hit ⟨1, ⟨0, 0, -1⟩, ⟨0, 0, 1⟩, false, .lambertian Vec3.EMPTY⟩ ∧
    ¬ (0 < Vec3.dot (⟨0, 0, -1⟩ : Vec3) (⟨0, 0, 1⟩ : Vec3)) := by
  have hd : sDisc ⟨⟨0, 0, 0⟩, 1, .lambertian Vec3.EMPTY⟩ ⟨⟨0, 0, 0⟩, ⟨0, 0, -1⟩⟩ = 1 := by
    norm_num [sDisc, sH, sA, sC, sOC, Vec3.dot, Vec3.sum, Vec3.length_squared]
  have hr1 : sRoot1 ⟨⟨0, 0, 0⟩, 1, .lambertian Vec3.EMPTY⟩ ⟨⟨0, 0, 0⟩, ⟨0, 0, -1⟩⟩ = -1 := by
    norm_num [sRoot1, hd, Real.sqrt_one, sH, sA, sOC, Vec3.dot, Vec3.sum,
      Vec3.length_squared]
  have hr2 : sRoot2 ⟨⟨0, 0, 0⟩, 1, .lambertian Vec3.EMPTY⟩ ⟨⟨0, 0, 0⟩, ⟨0, 0, -1⟩⟩ = 1 := by
    norm_num [sRoot2, hd, Real.sqrt_one, sH, sA, sOC, Vec3.dot, Vec3.sum,
      Vec3.length_squared]
  have hrec : sphereRecord ⟨⟨0, 0, 0⟩, 1, .lambertian Vec3.EMPTY⟩
      ⟨⟨0, 0, 0⟩, ⟨0, 0, -1⟩⟩ 1 =
      ⟨1, ⟨0, 0, -1⟩, ⟨0, 0, 1⟩, false, .lambertian Vec3.EMPTY⟩ := by
    norm_num [sphereRecord, HitRecord.set_face_normal, Ray.at', Vec3.dot, Vec3.sum]
  refine ⟨?_, by norm_num [Vec3.dot, Vec3.sum]⟩
  have e := sphereHit_hit_root2 ⟨⟨0, 0, 0⟩, 1, .lambertian Vec3.EMPTY⟩
    ⟨⟨0, 0, 0⟩, ⟨0, 0, -1⟩⟩ Interval.FORWARD (by rw [hd]; norm_num)
    (by rw [hr1]; exact not_surrounds_new_coe_top (by norm_num))
    (by rw [hr2]; exact surrounds_new_coe_top (by norm_num))
  rw [hr2, hrec] at e
  exact e

/-- Amended C5: every record returned by `Sphere::hit` (for a sphere with
nonzero radius and a ray with nonzero direction) or by `Triangle::hit` has a
unit-length normal oriented *against* the incoming ray —
`dot(ray.direction, normal) ≤ 0` always (strictly for triangles, and with
equality possible only at sphere tangency) — while `front_face` records
whether the *outward* geometric normal opposed the ray. -/
theorem c5_amended_normal_invariants :
    (∀ (s : Sphere) (ray : Ray) (I : Interval) (rec : HitRecord),
      s.radius ≠ 0 → ray.dir ≠ ⟨0, 0, 0⟩ → sphereHit s ray I = .hit rec →
      rec.normal.length = 1 ∧ Vec3.dot ray.dir rec.normal ≤ 0 ∧
        (rec.front_face = true ↔
          Vec3.dot ray.dir ((rec.point - s.center) / s.radius) < 0)) ∧
    (∀ (tr : Triangle) (ray : Ray) (I : Interval) (rec : HitRecord),
      triangleHit tr ray I = .hit rec →
      rec.normal.length = 1 ∧ Vec3.dot ray.dir rec.normal < 0 ∧
        (rec.front_face = true ↔ Vec3.dot ray.dir (tNormal tr) < 0)) :=
  ⟨fun s ray I rec hr hdir h => sphereHit_record_props s ray I rec hr hdir h,
   fun tr ray I rec h => triangleHit_record_props tr ray I rec h⟩

/-- Closed witness for the amended C5: a front-face sphere hit and a
front-face triangle hit, both with unit, ray-opposing normals. -/
theorem c5_witness :
    (sphereRecord ⟨⟨0, 0, -2⟩, 1, .lambertian Vec3.EMPTY⟩
        ⟨⟨0, 0, 0⟩, ⟨0, 0, -1⟩⟩ 1).normal.length = 1 ∧
    Vec3.dot (⟨0, 0, -1⟩ : Vec3) (sphereRecord ⟨⟨0, 0, -2⟩, 1, .lambertian Vec3.EMPTY⟩
        ⟨⟨0, 0, 0⟩, ⟨0, 0, -1⟩⟩ 1).normal ≤ 0 ∧
    (triangleRecord ⟨⟨-1, -1, -1⟩, ⟨1, -1, -1⟩, ⟨-1, 1, -1⟩, .lambertian Vec3.EMPTY⟩
        ⟨⟨0, 0, 0⟩, ⟨0, 0, -1⟩⟩).normal.length = 1 ∧
    Vec3.dot (⟨0, 0, -1⟩ : Vec3)
      (triangleRecord ⟨⟨-1, -1, -1⟩, ⟨1, -1, -1⟩, ⟨-1, 1, -1⟩, .lambertian Vec3.EMPTY⟩
        ⟨⟨0, 0, 0⟩, ⟨0, 0, -1⟩⟩).normal < 0 := by
  have hdN : sDisc ⟨⟨0, 0, -2⟩, 1, .lambertian Vec3.EMPTY⟩ ⟨⟨0, 0, 0⟩, ⟨0, 0, -1⟩⟩ = 1 := by
    norm_num [sDisc, sH, sA, sC, sOC, Vec3.dot, Vec3.sum, Vec3.length_squared]
  have hr1N : sRoot1 ⟨⟨0, 0, -2⟩, 1, .lambertian Vec3.EMPTY⟩
      ⟨⟨0, 0, 0⟩, ⟨0, 0, -1⟩⟩ = 1 := by
    norm_num [sRoot1, hdN, Real.sqrt_one, sH, sA, sOC, Vec3.dot, Vec3.sum,
      Vec3.length_squared]
  have hhitS : sphereHit ⟨⟨0, 0, -2⟩, 1, .lambertian Vec3.EMPTY⟩
      ⟨⟨0, 0, 0⟩, ⟨0, 0, -1⟩⟩ (Interval.new ((0 : ℝ) : EReal) ((10 : ℝ) : EReal)) =
      .hit (sphereRecord ⟨⟨0, 0, -2⟩, 1, .lambertian Vec3.EMPTY⟩
        ⟨⟨0, 0, 0⟩, ⟨0, 0, -1⟩⟩ 1) := by
    have := sphereHit_hit_root1 ⟨⟨0, 0, -2⟩, 1, .lambertian Vec3.EMPTY⟩
      ⟨⟨0, 0, 0⟩, ⟨0, 0, -1⟩⟩ (Interval.new ((0 : ℝ) : EReal) ((10 : ℝ) : EReal))
      (by rw [hdN]; norm_num)
      (by rw [hr1N]; exact surrounds_new_coe (by norm_num) (by norm_num))
    rw [hr1N] at this
    exact this
  have hS := c5_amended_normal_invariants.1 ⟨⟨0, 0, -2⟩, 1, .lambertian Vec3.EMPTY⟩
    ⟨⟨0, 0, 0⟩, ⟨0, 0, -1⟩⟩ (Interval.new ((0 : ℝ) : EReal) ((10 : ℝ) : EReal)) _
    (by norm_num) (by simp) hhitS
  have hcross : Vec3.cross
      ((⟨⟨-1, -1, -1⟩, ⟨1, -1, -1⟩, ⟨-1, 1, -1⟩, .lambertian Vec3.EMPTY⟩ : Triangle).b -
        (⟨⟨-1, -1, -1⟩, ⟨1, -1, -1⟩, ⟨-1, 1, -1⟩, .lambertian Vec3.EMPTY⟩ : Triangle).a)
      ((⟨⟨-1, -1, -1⟩, ⟨1, -1, -1⟩, ⟨-1, 1, -1⟩, .lambertian Vec3.EMPTY⟩ : Triangle).c -
        (⟨⟨-1, -1, -1⟩, ⟨1, -1, -1⟩, ⟨-1, 1, -1⟩, .lambertian Vec3.EMPTY⟩ : Triangle).a) =
      ⟨0, 0, 4⟩ := by
    norm_num [Vec3.cross]
  have hlen : (⟨0, 0, 4⟩ : Vec3).length = 4 := by
    unfold Vec3.length
    rw [show (⟨0, 0, 4⟩ : Vec3).length_squared = 4 ^ 2 by norm_num [Vec3.length_squared]]
    exact Real.sqrt_sq (by norm_num)
  have hn : tNormal ⟨⟨-1, -1, -1⟩, ⟨1, -1, -1⟩, ⟨-1, 1, -1⟩, .lambertian Vec3.EMPTY⟩ =
      ⟨0, 0, 1⟩ := by
    unfold tNormal
    rw [hcross]
    unfold Vec3.unit
    rw [hlen]
    norm_num
  have hp : Vec3.dot (⟨0, 0, -1⟩ : Vec3)
      (tNormal ⟨⟨-1, -1, -1⟩, ⟨1, -1, -1⟩, ⟨-1, 1, -1⟩, .lambertian Vec3.EMPTY⟩) ≠ 0 := by
    rw [hn]
    norm_num [Vec3.dot, Vec3.sum]
  have hdetA : tDetA ⟨⟨-1, -1, -1⟩, ⟨1, -1, -1⟩, ⟨-1, 1, -1⟩, .lambertian Vec3.EMPTY⟩
      ⟨⟨0, 0, 0⟩, ⟨0, 0, -1⟩⟩ = 4 := by
    norm_num [tDetA, Vec3.det, Vec3.cross, Vec3.dot, Vec3.sum]
  have hT : tT ⟨⟨-1, -1, -1⟩, ⟨1, -1, -1⟩, ⟨-1, 1, -1⟩, .lambertian Vec3.EMPTY⟩
      ⟨⟨0, 0, 0⟩, ⟨0, 0, -1⟩⟩ = 1 := by
    norm_num [tT, hdetA, Vec3.det, Vec3.cross, Vec3.dot, Vec3.sum]
  have hU : tU ⟨⟨-1, -1, -1⟩, ⟨1, -1, -1⟩, ⟨-1, 1, -1⟩, .lambertian Vec3.EMPTY⟩
      ⟨⟨0, 0, 0⟩, ⟨0, 0, -1⟩⟩ = 1 / 2 := by
    norm_num [tU, hdetA, Vec3.det, Vec3.cross, Vec3.dot, Vec3.sum]
  have hV : tV ⟨⟨-1, -1, -1⟩, ⟨1, -1, -1⟩, ⟨-1, 1, -1⟩, .lambertian Vec3.EMPTY⟩
      ⟨⟨0, 0, 0⟩, ⟨0, 0, -1⟩⟩ = 1 / 2 := by
    norm_num [tV, hdetA, Vec3.det, Vec3.cross, Vec3.dot, Vec3.sum]
  have hhitT : triangleHit ⟨⟨-1, -1, -1⟩, ⟨1, -1, -1⟩, ⟨-1, 1, -1⟩, .lambertian Vec3.EMPTY⟩
      ⟨⟨0, 0, 0⟩, ⟨0, 0, -1⟩⟩ (Interval.new ((0 : ℝ) : EReal) ((10 : ℝ) : EReal)) =
      .hit (triangleRecord ⟨⟨-1, -1, -1⟩, ⟨1, -1, -1⟩, ⟨-1, 1, -1⟩, .lambertian Vec3.EMPTY⟩
        ⟨⟨0, 0, 0⟩, ⟨0, 0, -1⟩⟩) :=
    triangleHit_hit _ _ _ hp (by rw [hU]; norm_num) (by rw [hV]; norm_num)
      (by rw [hU, hV]; norm_num)
      (by rw [hT]; exact contains_new_coe (by norm_num) (by norm_num))
  have hTr := c5_amended_normal_invariants.2 _ _ _ _ hhitT
  exact ⟨hS.1, hS.2.1, hTr.1, hTr.2.1⟩

lemma rayColor_of_neg (world : List Primitive) (ray : Ray) (depth : ℤ)
    (rnd : ℕ → Vec3) (hd : depth < 0) : rayColor world ray depth rnd = Vec3.EMPTY := by
  rw [rayColor, dif_pos hd]

lemma rayColor_of_miss (world : List Primitive) (ray : Ray) (depth : ℤ)
    (rnd : ℕ → Vec3) (hd : 0 ≤ depth)
    (hm : hittableListHit world ray Interval.ALMOST_FORWARD = .miss) :
    rayColor world ray depth rnd = background ray := by
  rw [rayColor, dif_neg (not_lt.mpr hd), hm]

lemma rayColor_of_hit (world : List Primitive) (ray : Ray) (depth : ℤ)
    (rnd : ℕ → Vec3) (hd : 0 ≤ depth) (rec : HitRecord)
    (hm : hittableListHit world ray Interval.ALMOST_FORWARD = .hit rec) :
    rayColor world ray depth rnd =
      match rec.material.scatter ray rec (rnd 0) with
      | .scatter scattered attenuation =>
        attenuation * rayColor world scattered (depth - 1) (fun n => rnd (n + 1))
      | .noScatter => Vec3.EMPTY := by
  rw [rayColor, dif_neg (not_lt.mpr hd), hm]

lemma getRayColor_of_neg (world : List Sphere) (ray : Ray) (depth : ℤ)
    (rnd : ℕ → Vec3) (hd : depth < 0) : getRayColor world ray depth rnd = Vec3.EMPTY := by
  rw [getRayColor, dif_pos hd]

lemma getRayColor_of_miss (world : List Sphere) (ray : Ray) (depth : ℤ)
    (rnd : ℕ → Vec3) (hd : 0 ≤ depth)
    (hm : aggregateHit sphereHit world ray Interval.FORWARD = .miss) :
    getRayColor world ray depth rnd = background ray := by
  rw [getRayColor, dif_neg (not_lt.mpr hd), hm]

lemma getRayColor_of_hit (world : List Sphere) (ray : Ray) (depth : ℤ)
    (rnd : ℕ → Vec3) (hd : 0 ≤ depth) (rec : HitRecord)
    (hm : aggregateHit sphereHit world ray Interval.FORWARD = .hit rec) :
    getRayColor world ray depth rnd =
      getRayColor world ⟨rec.point, Vec3.random_on_hemisphere (rnd 0) rec.normal⟩
        (depth - 1) (fun n => rnd (n + 1)) * (0.5 : ℝ) := by
  rw [getRayColor, dif_neg (not_lt.mpr hd), hm]

lemma aggregateHit_of_loop_none {α : Type*} {hitf : α → Ray → Interval → HitResult}
    {items : List α} {ray : Ray} {imin imax : EReal}
    (h : hitLoop hitf ray imin items none imax = none) :
    aggregateHit hitf items ray (Interval.new imin imax) = .miss := by
  unfold aggregateHit
  dsimp only [Interval.new]
  rw [h]

/-- Claim C6: whenever the scene query of the transport integrator misses
and the recursion budget is not yet exhausted, the integrator returns
exactly the vertical gradient `(1,1,1)*(1-t) + (0.5,0.7,1.0)*t` with
`t = 0.5*(d.y + 1)` and `d` the ray direction divided by the maximum of the
absolute values of its components (Chebyshev normalization) — for both
`Camera::ray_color` and `get_ray_color`. -/
theorem c6_background_gradient_on_miss :
    (∀ (world : List Primitive) (ray : Ray) (depth : ℤ) (rnd : ℕ → Vec3), 0 ≤ depth →
      hittableListHit world ray Interval.ALMOST_FORWARD = .miss →
      rayColor world ray depth rnd =
        Vec3.new 1 1 1 *
            (1 - 0.5 * ((ray.dir / max (max |ray.dir.x| |ray.dir.y|) |ray.dir.z|).y + 1)) +
          Vec3.new 0.5 0.7 1.0 *
            (0.5 * ((ray.dir / max (max |ray.dir.x| |ray.dir.y|) |ray.dir.z|).y + 1))) ∧
    (∀ (world : List Sphere) (ray : Ray) (depth : ℤ) (rnd : ℕ → Vec3), 0 ≤ depth →
      aggregateHit sphereHit world ray Interval.FORWARD = .miss →
      getRayColor world ray depth rnd =
        Vec3.new 1 1 1 *
            (1 - 0.5 * ((ray.dir / max (max |ray.dir.x| |ray.dir.y|) |ray.dir.z|).y + 1)) +
          Vec3.new 0.5 0.7 1.0 *
            (0.5 * ((ray.dir / max (max |ray.dir.x| |ray.dir.y|) |ray.dir.z|).y + 1))) := by
  constructor
  · intro world ray depth rnd hd hm
    rw [rayColor_of_miss world ray depth rnd hd hm]
    rfl
  · intro world ray depth rnd hd hm
    rw [getRayColor_of_miss world ray depth rnd hd hm]
    rfl

/-- Closed witness for C6: the empty scene misses every ray, and both
integrators return the gradient at depth 5. -/
theorem c6_witness :
    rayColor [] ⟨⟨0, 0, 0⟩, ⟨0, 0, -1⟩⟩ 5 (fun _ => ⟨0, 0, 0⟩) =
      Vec3.new 1 1 1 * (1 - 0.5 * (((⟨0, 0, -1⟩ : Vec3) /
          max (max |(0 : ℝ)| |(0 : ℝ)|) |(-1 : ℝ)|).y + 1)) +
        Vec3.new 0.5 0.7 1.0 * (0.5 * (((⟨0, 0, -1⟩ : Vec3) /
          max (max |(0 : ℝ)| |(0 : ℝ)|) |(-1 : ℝ)|).y + 1)) ∧
    getRayColor [] ⟨⟨0, 0, 0⟩, ⟨0, 0, -1⟩⟩ 5 (fun _ => ⟨0, 0, 0⟩) =
      Vec3.new 1 1 1 * (1 - 0.5 * (((⟨0, 0, -1⟩ : Vec3) /
          max (max |(0 : ℝ)| |(0 : ℝ)|) |(-1 : ℝ)|).y + 1)) +
        Vec3.new 0.5 0.7 1.0 * (0.5 * (((⟨0, 0, -1⟩ : Vec3) /
          max (max |(0 : ℝ)| |(0 : ℝ)|) |(-1 : ℝ)|).y + 1)) :=
  ⟨(c6_background_gradient_on_miss.1 [] ⟨⟨0, 0, 0⟩, ⟨0, 0, -1⟩⟩ 5 (fun _ => ⟨0, 0, 0⟩)
      (by norm_num) rfl),
   (c6_background_gradient_on_miss.2 [] ⟨⟨0, 0, 0⟩, ⟨0, 0, -1⟩⟩ 5 (fun _ => ⟨0, 0, 0⟩)
      (by norm_num) rfl)⟩

/-- Amended C7: `Camera::ray_color` queries the scene with
`Interval::ALMOST_FORWARD = [0.001, +inf)`, and every hit record that query
returns satisfies `t ≥ 0.001` (spheres strictly via `surrounds`; a triangle
can sit exactly at `t = 0.001` via the closed `contains`).  `main.rs`'s
`get_ray_color`, by contrast, queries with `Interval::FORWARD = [0, +inf)`
and does act on hits with `t ≤ 0.001` (see the counterexample). -/
theorem c7_amended_epsilon_interval (world : List Primitive) (ray : Ray)
    (rec : HitRecord) (h : hittableListHit world ray Interval.ALMOST_FORWARD = .hit rec) :
    (0.001 : ℝ) ≤ rec.t := by
  have h1 := hittableListHit_min_le world ray Interval.ALMOST_FORWARD rec h
  have h2 : ((0.001 : ℝ) : EReal) ≤ (rec.t : EReal) := h1
  exact EReal.coe_le_coe_iff.mp h2

/-- Counterexample to C7 as stated: a sphere whose both roots lie in
`(0, 0.001]` is invisible to the claimed interval `[0.001, ∞)` — the
`ALMOST_FORWARD` query misses — yet `get_ray_color` does *not* return the
background gradient for that ray: it hits at `t = 0.0002 ≤ 0.001` (its query
interval is `FORWARD = [0, ∞)`) and, at depth 0, bounces into the exhausted
budget, returning black. -/
theorem c7_counterexample :
    aggregateHit sphereHit [⟨⟨0, 0, -0.0005⟩, 0.0003, .lambertian Vec3.EMPTY⟩]
        ⟨⟨0, 0, 0⟩, ⟨0, 0, -1⟩⟩ Interval.ALMOST_FORWARD = .miss ∧
    getRayColor [⟨⟨0, 0, -0.0005⟩, 0.0003, .lambertian Vec3.EMPTY⟩]
        ⟨⟨0, 0, 0⟩, ⟨0, 0, -1⟩⟩ 0 (fun _ => ⟨1, 0, 0⟩) = ⟨0, 0, 0⟩ ∧
    background ⟨⟨0, 0, 0⟩, ⟨0, 0, -1⟩⟩ ≠ (⟨0, 0, 0⟩ : Vec3) := by
  have hd : sDisc ⟨⟨0, 0, -0.0005⟩, 0.0003, .lambertian Vec3.EMPTY⟩
      ⟨⟨0, 0, 0⟩, ⟨0, 0, -1⟩⟩ = 9e-8 := by
    norm_num [sDisc, sH, sA, sC, sOC, Vec3.dot, Vec3.sum, Vec3.length_squared]
  have hs : Real.sqrt (sDisc ⟨⟨0, 0, -0.0005⟩, 0.0003, .lambertian Vec3.EMPTY⟩
      ⟨⟨0, 0, 0⟩, ⟨0, 0, -1⟩⟩) = 0.0003 := by
    rw [hd, show (9e-8 : ℝ) = 0.0003 ^ 2 by norm_num]
    exact Real.sqrt_sq (by norm_num)
  have hr1 : sRoot1 ⟨⟨0, 0, -0.0005⟩, 0.0003, .lambertian Vec3.EMPTY⟩
      ⟨⟨0, 0, 0⟩, ⟨0, 0, -1⟩⟩ = 0.0002 := by
    unfold sRoot1
    rw [hs]
    norm_num [sH, sA, sOC, Vec3.dot, Vec3.sum, Vec3.length_squared]
  have hr2 : sRoot2 ⟨⟨0, 0, -0.0005⟩, 0.0003, .lambertian Vec3.EMPTY⟩
      ⟨⟨0, 0, 0⟩, ⟨0, 0, -1⟩⟩ = 0.0008 := by
    unfold sRoot2
    rw [hs]
    norm_num [sH, sA, sOC, Vec3.dot, Vec3.sum, Vec3.length_squared]
  have hmissA : sphereHit ⟨⟨0, 0, -0.0005⟩, 0.0003, .lambertian Vec3.EMPTY⟩
      ⟨⟨0, 0, 0⟩, ⟨0, 0, -1⟩⟩ (Interval.new ((0.001 : ℝ) : EReal) ⊤) = .miss :=
    sphereHit_miss_roots _ _ _
      (by rw [hr1]; exact not_surrounds_new_coe_top (by norm_num))
      (by rw [hr2]; exact not_surrounds_new_coe_top (by norm_num))
  have hhitF : sphereHit ⟨⟨0, 0, -0.0005⟩, 0.0003, .lambertian Vec3.EMPTY⟩
      ⟨⟨0, 0, 0⟩, ⟨0, 0, -1⟩⟩ (Interval.new ((0 : ℝ) : EReal) ⊤) =
      .hit (sphereRecord ⟨⟨0, 0, -0.0005⟩, 0.0003, .lambertian Vec3.EMPTY⟩
        ⟨⟨0, 0, 0⟩, ⟨0, 0, -1⟩⟩ 0.0002) := by
    have := sphereHit_hit_root1 ⟨⟨0, 0, -0.0005⟩, 0.0003, .lambertian Vec3.EMPTY⟩
      ⟨⟨0, 0, 0⟩, ⟨0, 0, -1⟩⟩ (Interval.new ((0 : ℝ) : EReal) ⊤)
      (by rw [hd]; norm_num) (by rw [hr1]; exact surrounds_new_coe_top (by norm_num))
    rw [hr1] at this
    exact this
  refine ⟨?_, ?_, ?_⟩
  · show aggregateHit sphereHit _ _ (Interval.new ((0.001 : ℝ) : EReal) ⊤) = .miss
    refine aggregateHit_of_loop_none ?_
    rw [hitLoop_cons_miss _ _ hmissA, hitLoop_nil]
  · have hagg : aggregateHit sphereHit
        [⟨⟨0, 0, -0.0005⟩, 0.0003, .lambertian Vec3.EMPTY⟩]
        ⟨⟨0, 0, 0⟩, ⟨0, 0, -1⟩⟩ Interval.FORWARD =
        .hit (sphereRecord ⟨⟨0, 0, -0.0005⟩, 0.0003, .lambertian Vec3.EMPTY⟩
          ⟨⟨0, 0, 0⟩, ⟨0, 0, -1⟩⟩ 0.0002) := by
      show aggregateHit sphereHit _ _ (Interval.new ((0 : ℝ) : EReal) ⊤) = _
      refine aggregateHit_of_loop ?_
      rw [hitLoop_cons_hit _ _ hhitF, hitLoop_nil]
    rw [getRayColor_of_hit _ _ _ _ (by norm_num) _ hagg,
      getRayColor_of_neg _ _ _ _ (by norm_num)]
    norm_num [Vec3.EMPTY]
  · unfold background
    intro hcontra
    have hy := congrArg Vec3.y hcontra
    norm_num [Vec3.new] at hy

/-- Closed witness for the amended C7: a sphere hit through the
`ALMOST_FORWARD` interval has `t = 1 ≥ 0.001`. -/
theorem c7_witness :
    hittableListHit [Primitive.sphere ⟨⟨0, 0, -2⟩, 1, .lambertian Vec3.EMPTY⟩]
        ⟨⟨0, 0, 0⟩, ⟨0, 0, -1⟩⟩ Interval.ALMOST_FORWARD =
      .hit (sphereRecord ⟨⟨0, 0, -2⟩, 1, .lambertian Vec3.EMPTY⟩
        ⟨⟨0, 0, 0⟩, ⟨0, 0, -1⟩⟩ 1) ∧
    (0.001 : ℝ) ≤ (sphereRecord ⟨⟨0, 0, -2⟩, 1, .lambertian Vec3.EMPTY⟩
      ⟨⟨0, 0, 0⟩, ⟨0, 0, -1⟩⟩ 1).t := by
  have hdN : sDisc ⟨⟨0, 0, -2⟩, 1, .lambertian Vec3.EMPTY⟩ ⟨⟨0, 0, 0⟩, ⟨0, 0, -1⟩⟩ = 1 := by
    norm_num [sDisc, sH, sA, sC, sOC, Vec3.dot, Vec3.sum, Vec3.length_squared]
  have hr1N : sRoot1 ⟨⟨0, 0, -2⟩, 1, .lambertian Vec3.EMPTY⟩
      ⟨⟨0, 0, 0⟩, ⟨0, 0, -1⟩⟩ = 1 := by
    norm_num [sRoot1, hdN, Real.sqrt_one, sH, sA, sOC, Vec3.dot, Vec3.sum,
      Vec3.length_squared]
  have hhit : primitiveHit (Primitive.sphere ⟨⟨0, 0, -2⟩, 1, .lambertian Vec3.EMPTY⟩)
      ⟨⟨0, 0, 0⟩, ⟨0, 0, -1⟩⟩ (Interval.new ((0.001 : ℝ) : EReal) ⊤) =
      .hit (sphereRecord ⟨⟨0, 0, -2⟩, 1, .lambertian Vec3.EMPTY⟩
        ⟨⟨0, 0, 0⟩, ⟨0, 0, -1⟩⟩ 1) := by
    have := sphereHit_hit_root1 ⟨⟨0, 0, -2⟩, 1, .lambertian Vec3.EMPTY⟩
      ⟨⟨0, 0, 0⟩, ⟨0, 0, -1⟩⟩ (Interval.new ((0.001 : ℝ) : EReal) ⊤)
      (by rw [hdN]; norm_num) (by rw [hr1N]; exact surrounds_new_coe_top (by norm_num))
    rw [hr1N] at this
    exact this
  have hlist : hittableListHit [Primitive.sphere ⟨⟨0, 0, -2⟩, 1, .lambertian Vec3.EMPTY⟩]
      ⟨⟨0, 0, 0⟩, ⟨0, 0, -1⟩⟩ Interval.ALMOST_FORWARD =
      .hit (sphereRecord ⟨⟨0, 0, -2⟩, 1, .lambertian Vec3.EMPTY⟩
        ⟨⟨0, 0, 0⟩, ⟨0, 0, -1⟩⟩ 1) := by
    show aggregateHit primitiveHit _ _ (Interval.new ((0.001 : ℝ) : EReal) ⊤) = _
    refine aggregateHit_of_loop ?_
    rw [hitLoop_cons_hit _ _ hhit, hitLoop_nil]
  exact ⟨hlist, c7_amended_epsilon_interval _ _ _ hlist⟩

/-! ### Framebuffer lemmas: where the band loops write, and what a read at a
pixel position yields.  (`i64` division in Rust truncates toward zero; the
claims below only divide nonnegative dimensions, where this agrees with
Lean's Euclidean `/` on `ℤ`.) -/

lemma xLoop_out (pixel : ℤ → Vec3) (rowbase : ℤ) :
    ∀ (n : ℕ) (buf : ℤ → ℝ) (i : ℤ), (i < rowbase ∨ rowbase + 3 * (n : ℤ) ≤ i) →
      xLoop pixel rowbase n buf i = buf i := by
  intro n
  induction n with
  | zero =>
    intro buf i _
    rfl
  | succ n ih =>
    intro buf i hi
    have h3 : i ≠ rowbase + 3 * (n : ℤ) := by push_cast at hi; omega
    have h4 : i ≠ rowbase + 3 * (n : ℤ) + 1 := by push_cast at hi; omega
    have h5 : i ≠ rowbase + 3 * (n : ℤ) + 2 := by push_cast at hi; omega
    simp only [xLoop, pixWrite]
    rw [if_neg h3, if_neg h4, if_neg h5]
    exact ih buf i (by push_cast at hi ⊢; omega)

lemma xLoop_in (pixel : ℤ → Vec3) (rowbase : ℤ) :
    ∀ (n : ℕ) (buf : ℤ → ℝ) (x : ℕ) (k : ℤ), x < n → 0 ≤ k → k < 3 →
      xLoop pixel rowbase n buf (rowbase + 3 * (x : ℤ) + k) =
        Vec3.ch (pixel (x : ℤ)) k := by
  intro n
  induction n with
  | zero =>
    intro buf x k hx _ _
    exact absurd hx (Nat.not_lt_zero x)
  | succ n ih =>
    intro buf x k hx hk0 hk3
    simp only [xLoop, pixWrite]
    by_cases hxn : x = n
    · subst hxn
      interval_cases k
      · rw [if_pos (by omega)]
        simp [Vec3.ch]
      · rw [if_neg (by omega), if_pos (by omega)]
        simp [Vec3.ch]
      · rw [if_neg (by omega), if_neg (by omega), if_pos (by omega)]
        simp [Vec3.ch]
    · have hxlt : x < n := by omega
      have h3 : rowbase + 3 * (x : ℤ) + k ≠ rowbase + 3 * (n : ℤ) := by omega
      have h4 : rowbase + 3 * (x : ℤ) + k ≠ rowbase + 3 * (n : ℤ) + 1 := by omega
      have h5 : rowbase + 3 * (x : ℤ) + k ≠ rowbase + 3 * (n : ℤ) + 2 := by omega
      rw [if_neg h3, if_neg h4, if_neg h5]
      exact ih buf x k hxlt hk0 hk3

lemma yLoop_in (pixel : ℤ → ℤ → Vec3) (bs : ℤ) (width : ℕ)
    (hbs : bs = 3 * (width : ℤ)) :
    ∀ (m : ℕ) (buf : ℤ → ℝ) (y : ℤ) (x : ℕ) (k : ℤ),
      0 ≤ y → y < (m : ℤ) → x < width → 0 ≤ k → k < 3 →
      yLoop pixel bs width m buf (y * bs + 3 * (x : ℤ) + k) =
        Vec3.ch (pixel (x : ℤ) y) k := by
  intro m
  induction m with
  | zero =>
    intro buf y x k hy0 hym _ _ _
    exact absurd hym (by push_cast; omega)
  | succ m ih =>
    intro buf y x k hy0 hym hx hk0 hk3
    simp only [yLoop]
    by_cases hy : y = (m : ℤ)
    · subst hy
      exact xLoop_in _ _ width (yLoop pixel bs width m buf) x k hx hk0 hk3
    · have hylt : y < (m : ℤ) := by push_cast at hym; omega
      have hout : y * bs + 3 * (x : ℤ) + k < (m : ℤ) * bs := by
        have h1 : y + 1 ≤ (m : ℤ) := by omega
        have h2 : 3 * (x : ℤ) + k < bs := by omega
        nlinarith [mul_le_mul_of_nonneg_right h1 (by omega : (0 : ℤ) ≤ bs)]
      rw [xLoop_out _ _ width _ _ (Or.inl hout)]
      exact ih buf y x k hy0 hylt hx hk0 hk3

lemma yLoop_out (pixel : ℤ → ℤ → Vec3) (bs : ℤ) (width : ℕ)
    (hbs : bs = 3 * (width : ℤ)) :
    ∀ (m : ℕ) (buf : ℤ → ℝ) (i : ℤ), (i < 0 ∨ (m : ℤ) * bs ≤ i) →
      yLoop pixel bs width m buf i = buf i := by
  intro m
  induction m with
  | zero =>
    intro buf i _
    rfl
  | succ m ih =>
    intro buf i hi
    have hbs0 : (0 : ℤ) ≤ bs := by omega
    have hm0 : (0 : ℤ) ≤ (m : ℤ) * bs := mul_nonneg (by positivity) hbs0
    have hsucc : ((m : ℤ) + 1) * bs = (m : ℤ) * bs + bs := by ring
    simp only [yLoop]
    have hxout : i < (m : ℤ) * bs ∨ (m : ℤ) * bs + 3 * (width : ℤ) ≤ i := by
      rcases hi with hi | hi
      · exact Or.inl (by omega)
      · push_cast at hi
        right
        omega
    rw [xLoop_out _ _ width _ _ hxout]
    refine ih buf i ?_
    rcases hi with hi | hi
    · exact Or.inl hi
    · push_cast at hi
      right
      omega



lemma blockLoop_out (pixel : ℤ → ℤ → ℤ → Vec3) (bh bs : ℤ) (width : ℕ)
    (hbh : 0 ≤ bh) (hbs : 0 ≤ bs) :
    ∀ (nb : ℕ) (buf : ℤ → ℝ) (i : ℤ), (nb : ℤ) * bh * bs ≤ i →
      blockLoop pixel bh bs width nb buf i = buf i := by
  intro nb
  induction nb with
  | zero =>
    intro buf i _
    rfl
  | succ nb ih =>
    intro buf i hi
    have hsucc : ((nb : ℤ) + 1) * bh * bs = (nb : ℤ) * bh * bs + bh * bs := by ring
    have hi' : (nb : ℤ) * bh * bs + bh * bs ≤ i := by
      push_cast at hi
      linarith [hsucc]
    have hbhbs : 0 ≤ bh * bs := mul_nonneg hbh hbs
    have hcond : ¬ ((nb : ℤ) * bh * bs ≤ i ∧ i < (nb : ℤ) * bh * bs + bh * bs) := by
      rintro ⟨_, hlt⟩
      linarith
    simp only [blockLoop, bandCopy]
    rw [if_neg hcond]
    exact ih buf i (by linarith)

lemma blockLoop_at (pixel : ℤ → ℤ → ℤ → Vec3) (bh bs : ℤ) (width : ℕ)
    (hbs : bs = 3 * (width : ℤ)) (hbh : 0 ≤ bh) :
    ∀ (nb : ℕ) (buf : ℤ → ℝ) (b y : ℤ) (x : ℕ) (k : ℤ),
      0 ≤ b → b < (nb : ℤ) → 0 ≤ y → y < bh → x < width → 0 ≤ k → k < 3 →
      blockLoop pixel bh bs width nb buf ((b * bh + y) * bs + 3 * (x : ℤ) + k) =
        Vec3.ch (pixel b (x : ℤ) y) k := by
  intro nb
  induction nb with
  | zero =>
    intro buf b y x k hb0 hb _ _ _ _ _
    exact absurd hb (by omega)
  | succ nb ih =>
    intro buf b y x k hb0 hb hy0 hy hx hk0 hk3
    have hbs0 : (0 : ℤ) ≤ bs := by omega
    have h2 : 3 * (x : ℤ) + k < bs := by omega
    simp only [blockLoop, bandCopy]
    by_cases hbn : b = (nb : ℤ)
    · subst hbn
      have hcond : (nb : ℤ) * bh * bs ≤ ((nb : ℤ) * bh + y) * bs + 3 * (x : ℤ) + k ∧
          ((nb : ℤ) * bh + y) * bs + 3 * (x : ℤ) + k < (nb : ℤ) * bh * bs + bh * bs := by
        constructor
        · nlinarith [mul_nonneg hy0 hbs0]
        · have hy1 : y + 1 ≤ bh := by omega
          nlinarith [mul_le_mul_of_nonneg_right hy1 hbs0]
      rw [if_pos hcond]
      have hidx : ((nb : ℤ) * bh + y) * bs + 3 * (x : ℤ) + k - (nb : ℤ) * bh * bs
          = y * bs + 3 * (x : ℤ) + k := by ring
      rw [hidx]
      unfold localBand
      have hybh : y < ((bh.toNat : ℕ) : ℤ) := by
        rw [Int.toNat_of_nonneg hbh]
        exact hy
      exact yLoop_in _ bs width hbs bh.toNat _ y x k hy0 hybh hx hk0 hk3
    · have hblt : b < (nb : ℤ) := by push_cast at hb; omega
      have hlt : (b * bh + y) * bs + 3 * (x : ℤ) + k < (nb : ℤ) * bh * bs := by
        have h1 : b * bh + y + 1 ≤ (nb : ℤ) * bh := by
          nlinarith [mul_le_mul_of_nonneg_right (show b + 1 ≤ (nb : ℤ) by omega) hbh]
        nlinarith [mul_le_mul_of_nonneg_right h1 hbs0]
      have hcond : ¬ ((nb : ℤ) * bh * bs ≤ (b * bh + y) * bs + 3 * (x : ℤ) + k ∧
          (b * bh + y) * bs + 3 * (x : ℤ) + k < (nb : ℤ) * bh * bs + bh * bs) := by
        rintro ⟨hge, _⟩
        linarith
      rw [if_neg hcond]
      exact ih buf b y x k hb0 hblt hy0 hy hx hk0 hk3

/-- Reading the shared buffer of `parallel_render` at the flat position of
band `b`, band-local row `y`, column `x`, channel `k` yields the color the
band worker computed with the *freshly constructed default camera*
(`Camera::new()`), at image row `b * block_height + y`. -/
lemma parallelRenderBuf_pixel (cam : Camera) (world : List Primitive)
    (rngs : ℤ → ℤ → ℤ → RngP) (y_blocks : ℤ) (hyb : 0 < y_blocks)
    (hh : 0 ≤ cam.image_height) (hw : 0 ≤ cam.image_width)
    (b y x k : ℤ) (hb0 : 0 ≤ b) (hb : b < y_blocks) (hy0 : 0 ≤ y)
    (hy : y < cam.image_height / y_blocks) (hx0 : 0 ≤ x) (hx : x < cam.image_width)
    (hk0 : 0 ≤ k) (hk3 : k < 3) :
    parallelRenderBuf cam world rngs y_blocks
        ((b * (cam.image_height / y_blocks) + y) * (cam.image_width * 3) + x * 3 + k) =
      Vec3.ch (renderPixel cameraNew world (rngs b y x) x
        (b * (cam.image_height / y_blocks) + y)) k := by
  have hxx : ((x.toNat : ℕ) : ℤ) = x := Int.toNat_of_nonneg hx0
  have hybnat : ((y_blocks.toNat : ℕ) : ℤ) = y_blocks := Int.toNat_of_nonneg (le_of_lt hyb)
  unfold parallelRenderBuf
  have := blockLoop_at
    (fun b x y => renderPixel cameraNew world (rngs b y x) x
      (b * (cam.image_height / y_blocks) + y))
    (cam.image_height / y_blocks) (cam.image_width * 3) cam.image_width.toNat
    (by rw [Int.toNat_of_nonneg hw]; ring)
    (Int.ediv_nonneg hh (le_of_lt hyb)) y_blocks.toNat (fun _ => 0) b y x.toNat k
    hb0 (by rw [hybnat]; exact hb) hy0 hy (by omega) hk0 hk3
  rw [hxx, mul_comm (3 : ℤ) x] at this
  exact this

/-- Claim C8: when `image_height` is not evenly divisible by `y_blocks`, the
parallel renderer fills only the first `y_blocks * (image_height / y_blocks)`
rows (truncating division); every framebuffer entry of the remaining bottom
rows keeps its initial value `0.0`, and the render still completes without
any error or report. -/
theorem c8_truncated_rows_stay_zero (cam : Camera) (world : List Primitive)
    (rngs : ℤ → ℤ → ℤ → RngP) (y_blocks : ℤ) (hyb : 0 < y_blocks)
    (hh : 0 ≤ cam.image_height) (hw : 0 ≤ cam.image_width)
    (hndiv : ¬ (y_blocks ∣ cam.image_height)) (row col k : ℤ)
    (hrow : y_blocks * (cam.image_height / y_blocks) ≤ row)
    (hrowh : row < cam.image_height)
    (hcol : 0 ≤ col) (hcolw : col < cam.image_width) (hk0 : 0 ≤ k) (hk3 : k < 3) :
    parallelRenderBuf cam world rngs y_blocks
      (row * (cam.image_width * 3) + col * 3 + k) = 0 := by
  have hybnat : ((y_blocks.toNat : ℕ) : ℤ) = y_blocks := Int.toNat_of_nonneg (le_of_lt hyb)
  have hbh : 0 ≤ cam.image_height / y_blocks := Int.ediv_nonneg hh (le_of_lt hyb)
  have hbs : (0 : ℤ) ≤ cam.image_width * 3 := by omega
  have hle : (y_blocks.toNat : ℤ) * (cam.image_height / y_blocks) * (cam.image_width * 3) ≤
      row * (cam.image_width * 3) + col * 3 + k := by
    rw [hybnat]
    nlinarith [mul_le_mul_of_nonneg_right hrow hbs]
  unfold parallelRenderBuf
  exact blockLoop_out _ (cam.image_height / y_blocks) (cam.image_width * 3)
    cam.image_width.toNat hbh hbs y_blocks.toNat (fun _ => 0) _ hle

/-- Closed witness for C8: a 2×3 image split into 2 bands; `3 / 2 = 1`, so
row 2 is dropped and its entries read `0.0`. -/
theorem c8_witness :
    parallelRenderBuf
      { image_height := 3, image_width := 2, aspectRatio := 1, center := ⟨0, 0, 0⟩,
        pixel00_loc := ⟨0, 0, 0⟩, pixel_delta_u := ⟨0, 0, 0⟩, pixel_delta_v := ⟨0, 0, 0⟩,
        samples_per_pixel := 1, max_depth := 1 }
      [] (fun _ _ _ => ⟨fun _ => 0, fun _ => 0, fun _ _ => ⟨0, 0, 0⟩⟩) 2
      (2 * (2 * 3) + 0 * 3 + 0) = 0 :=
  c8_truncated_rows_stay_zero
    { image_height := 3, image_width := 2, aspectRatio := 1, center := ⟨0, 0, 0⟩,
      pixel00_loc := ⟨0, 0, 0⟩, pixel_delta_u := ⟨0, 0, 0⟩, pixel_delta_v := ⟨0, 0, 0⟩,
      samples_per_pixel := 1, max_depth := 1 }
    [] (fun _ _ _ => ⟨fun _ => 0, fun _ => 0, fun _ _ => ⟨0, 0, 0⟩⟩) 2
    (by norm_num) (by norm_num) (by norm_num) (by decide) 2 0 0
    (by decide) (by decide) (by norm_num) (by norm_num) (by norm_num) (by norm_num)

/-- If every sample of `render_pixel` evaluates to the same color `c`, the
sample accumulation loop sums to `n • c`. -/
lemma sampleLoop_const (cam : Camera) (world : List Primitive) (rng : RngP)
    (pixel_center : Vec3) (c : Vec3)
    (hc : ∀ s : ℕ, rayColor world
      ⟨cam.center, pixel_center + cam.pixel_delta_u * rng.nx s +
        cam.pixel_delta_v * rng.ny s - cam.center⟩ cam.max_depth (rng.dr s) = c) :
    ∀ n : ℕ, sampleLoop cam world rng pixel_center n =
      ⟨(n : ℝ) * c.x, (n : ℝ) * c.y, (n : ℝ) * c.z⟩ := by
  intro n
  induction n with
  | zero =>
    simp [sampleLoop, Vec3.new]
  | succ n ih =>
    simp only [sampleLoop]
    rw [hc n, ih]
    simp only [Vec3.add_def]
    congr 1 <;> push_cast <;> ring

/-- The background gradient at the default camera's pixel-(0,0) direction. -/
lemma background_pixel00 :
    background ⟨cameraNew.center, ⟨-(511 / 512), 511 / 512, -1⟩⟩ =
      ⟨1025 / 2048, 7171 / 10240, 1⟩ := by
  unfold background
  dsimp only
  rw [show |(-(511 / 512) : ℝ)| = 511 / 512 by
      rw [abs_neg]; exact abs_of_nonneg (by norm_num),
    show |(511 / 512 : ℝ)| = 511 / 512 from abs_of_nonneg (by norm_num),
    show |(-1 : ℝ)| = 1 by rw [abs_neg, abs_one],
    max_self, max_eq_right (by norm_num : (511 / 512 : ℝ) ≤ 1)]
  norm_num [Vec3.new]

/-- `render_pixel` of the default camera on the empty scene at pixel (0,0),
with zero jitter draws: every sample returns the background gradient. -/
lemma renderPixel_default_empty :
    renderPixel cameraNew [] ⟨fun _ => 0, fun _ => 0, fun _ _ => ⟨0, 0, 0⟩⟩ 0 0 =
      ⟨1025 / 2048, 7171 / 10240, 1⟩ := by
  have hc : ∀ s : ℕ, rayColor []
      ⟨cameraNew.center,
        cameraNew.pixel00_loc + cameraNew.pixel_delta_u * (((0 : ℤ) : ℝ)) +
            cameraNew.pixel_delta_v * (((0 : ℤ) : ℝ)) +
          cameraNew.pixel_delta_u *
            ((⟨fun _ => 0, fun _ => 0, fun _ _ => ⟨0, 0, 0⟩⟩ : RngP).nx s) +
          cameraNew.pixel_delta_v *
            ((⟨fun _ => 0, fun _ => 0, fun _ _ => ⟨0, 0, 0⟩⟩ : RngP).ny s) -
          cameraNew.center⟩
      cameraNew.max_depth
      ((⟨fun _ => 0, fun _ => 0, fun _ _ => ⟨0, 0, 0⟩⟩ : RngP).dr s) =
      ⟨1025 / 2048, 7171 / 10240, 1⟩ := by
    intro s
    have hdir : cameraNew.pixel00_loc + cameraNew.pixel_delta_u * (((0 : ℤ) : ℝ)) +
          cameraNew.pixel_delta_v * (((0 : ℤ) : ℝ)) +
        cameraNew.pixel_delta_u *
          ((⟨fun _ => 0, fun _ => 0, fun _ _ => ⟨0, 0, 0⟩⟩ : RngP).nx s) +
        cameraNew.pixel_delta_v *
          ((⟨fun _ => 0, fun _ => 0, fun _ _ => ⟨0, 0, 0⟩⟩ : RngP).ny s) -
        cameraNew.center = ⟨-(511 / 512), 511 / 512, -1⟩ := by
      norm_num [cameraNew, Vec3.new]
    rw [hdir,
      rayColor_of_miss [] ⟨cameraNew.center, ⟨-(511 / 512), 511 / 512, -1⟩⟩
        cameraNew.max_depth _ (by norm_num [cameraNew]) rfl]
    exact background_pixel00
  show sampleLoop cameraNew [] _ _ cameraNew.samples_per_pixel.toNat /
      ((cameraNew.samples_per_pixel : ℤ) : ℝ) = _
  rw [sampleLoop_const cameraNew [] _ _ ⟨1025 / 2048, 7171 / 10240, 1⟩ hc]
  show (⟨((10 : ℕ) : ℝ) * (1025 / 2048), ((10 : ℕ) : ℝ) * (7171 / 10240),
      ((10 : ℕ) : ℝ) * 1⟩ : Vec3) / (((10 : ℤ) : ℝ)) = _
  norm_num

/-- `render_pixel` of a camera whose `max_depth` is negative returns black:
every sample's `ray_color` call returns `Vec3::EMPTY` immediately. -/
lemma renderPixel_negative_depth (cam : Camera) (world : List Primitive) (rng : RngP)
    (i j : ℤ) (hd : cam.max_depth < 0) (hspp : cam.samples_per_pixel = 10) :
    renderPixel cam world rng i j = ⟨0, 0, 0⟩ := by
  have hc : ∀ s : ℕ, rayColor world
      ⟨cam.center, cam.pixel00_loc + cam.pixel_delta_u * ((i : ℝ)) +
          cam.pixel_delta_v * ((j : ℝ)) +
        cam.pixel_delta_u * rng.nx s + cam.pixel_delta_v * rng.ny s -
        cam.center⟩ cam.max_depth (rng.dr s) = Vec3.EMPTY :=
    fun s => rayColor_of_neg _ _ _ _ hd
  show sampleLoop cam world rng _ cam.samples_per_pixel.toNat /
      ((cam.samples_per_pixel : ℤ) : ℝ) = _
  rw [sampleLoop_const cam world rng _ Vec3.EMPTY hc, hspp]
  show (⟨((10 : ℕ) : ℝ) * (0 : ℝ), ((10 : ℕ) : ℝ) * (0 : ℝ), ((10 : ℕ) : ℝ) * (0 : ℝ)⟩ :
      Vec3) / (((10 : ℤ) : ℝ)) = _
  norm_num

/-- Counterexample to C9 as stated: invoke `parallel_render` on a camera that
differs from the default (`max_depth = -1`, so its own `render_pixel` would
return black).  The band workers construct `Camera::new()` afresh instead of
copying the invoking camera, so the framebuffer pixel holds the default
camera's background color `1025/2048 ≠ 0` — not the invoking camera's
`render_pixel` value, even with identical RNG draws. -/
theorem c9_counterexample :
    parallelRenderBuf { cameraNew with max_depth := -1 } []
        (fun _ _ _ => ⟨fun _ => 0, fun _ => 0, fun _ _ => ⟨0, 0, 0⟩⟩) 1 0 ≠
      Vec3.ch (renderPixel { cameraNew with max_depth := -1 } []
        ⟨fun _ => 0, fun _ => 0, fun _ _ => ⟨0, 0, 0⟩⟩ 0 0) 0 := by
  intro heq
  have hL := parallelRenderBuf_pixel { cameraNew with max_depth := -1 } []
    (fun _ _ _ => ⟨fun _ => 0, fun _ => 0, fun _ _ => ⟨0, 0, 0⟩⟩) 1 one_pos
    (by norm_num [cameraNew]) (by norm_num [cameraNew]) 0 0 0 0 le_rfl one_pos le_rfl
    (by norm_num [cameraNew]) le_rfl (by norm_num [cameraNew]) le_rfl (by norm_num)
  have hidx : ((0 : ℤ) * (({ cameraNew with max_depth := -1 } : Camera).image_height / 1) +
      0) * (({ cameraNew with max_depth := -1 } : Camera).image_width * 3) + 0 * 3 + 0
      = 0 := by ring
  have hrow : (0 : ℤ) * (({ cameraNew with max_depth := -1 } : Camera).image_height / 1) +
      0 = 0 := by ring
  rw [hidx, hrow] at hL
  rw [hL, renderPixel_default_empty] at heq
  rw [renderPixel_negative_depth { cameraNew with max_depth := -1 } []
    ⟨fun _ => 0, fun _ => 0, fun _ _ => ⟨0, 0, 0⟩⟩ 0 0 (by norm_num [cameraNew]) rfl] at heq
  simp only [Vec3.ch, if_pos rfl] at heq
  norm_num at heq

/-- Amended C9: each band worker of `parallel_render` renders with a freshly
constructed **default** camera (`Camera::new()` inside the spawned closure),
not a copy of the invoking camera; for the same RNG draws, the framebuffer
pixel of band `b`, band-local row `y`, column `x` equals `render_pixel` of
the *default* camera at image row `b * block_height + y`.  (This coincides
with the claim only when the invoking camera has the default
configuration.)  The loop geometry — band count, band height
`image_height / y_blocks`, and row stride — does come from the invoking
camera. -/
theorem c9_amended_worker_uses_default_camera (cam : Camera) (world : List Primitive)
    (rngs : ℤ → ℤ → ℤ → RngP) (y_blocks : ℤ) (hyb : 0 < y_blocks)
    (hh : 0 ≤ cam.image_height) (hw : 0 ≤ cam.image_width)
    (b y x k : ℤ) (hb0 : 0 ≤ b) (hb : b < y_blocks) (hy0 : 0 ≤ y)
    (hy : y < cam.image_height / y_blocks) (hx0 : 0 ≤ x) (hx : x < cam.image_width)
    (hk0 : 0 ≤ k) (hk3 : k < 3) :
    parallelRenderBuf cam world rngs y_blocks
        ((b * (cam.image_height / y_blocks) + y) * (cam.image_width * 3) + x * 3 + k) =
      Vec3.ch (renderPixel cameraNew world (rngs b y x) x
        (b * (cam.image_height / y_blocks) + y)) k :=
  parallelRenderBuf_pixel cam world rngs y_blocks hyb hh hw b y x k hb0 hb hy0 hy
    hx0 hx hk0 hk3

/-- Closed witness for the amended C9: a 1×1 image, one band; the single
framebuffer entry is the default camera's `render_pixel` at (0,0). -/
theorem c9_witness :
    parallelRenderBuf
        { image_height := 1, image_width := 1, aspectRatio := 1, center := ⟨0, 0, 0⟩,
          pixel00_loc := ⟨0, 0, 0⟩, pixel_delta_u := ⟨0, 0, 0⟩,
          pixel_delta_v := ⟨0, 0, 0⟩, samples_per_pixel := 1, max_depth := 1 }
        [] (fun _ _ _ => ⟨fun _ => 0, fun _ => 0, fun _ _ => ⟨0, 0, 0⟩⟩) 1
        ((0 * (1 / 1) + 0) * (1 * 3) + 0 * 3 + 0) =
      Vec3.ch (renderPixel cameraNew []
        ⟨fun _ => 0, fun _ => 0, fun _ _ => ⟨0, 0, 0⟩⟩ 0 (0 * (1 / 1) + 0)) 0 :=
  c9_amended_worker_uses_default_camera
    { image_height := 1, image_width := 1, aspectRatio := 1, center := ⟨0, 0, 0⟩,
      pixel00_loc := ⟨0, 0, 0⟩, pixel_delta_u := ⟨0, 0, 0⟩,
      pixel_delta_v := ⟨0, 0, 0⟩, samples_per_pixel := 1, max_depth := 1 }
    [] (fun _ _ _ => ⟨fun _ => 0, fun _ => 0, fun _ _ => ⟨0, 0, 0⟩⟩) 1
    one_pos (by norm_num) (by norm_num) 0 0 0 0 le_rfl one_pos le_rfl
    (by norm_num) le_rfl (by norm_num) le_rfl (by norm_num)

lemma header_cat_22 (B : String) :
    "P3\n" ++ toString (2 : ℤ) ++ " " ++ toString (2 : ℤ) ++ "\n255\n" ++ B =
      "P3\n2 2\n255\n" ++ B := by
  rw [show "P3\n" ++ toString (2 : ℤ) ++ " " ++ toString (2 : ℤ) ++ "\n255\n" =
    "P3\n2 2\n255\n" by decide]

lemma header_cat_23 (B : String) :
    "P3\n" ++ toString (2 : ℤ) ++ " " ++ toString (3 : ℤ) ++ "\n255\n" ++ B =
      "P3\n2 3\n255\n" ++ B := by
  rw [show "P3\n" ++ toString (2 : ℤ) ++ " " ++ toString (3 : ℤ) ++ "\n255\n" =
    "P3\n2 3\n255\n" by decide]

/-- Claim C10 divergence (code bug): for a 2×3 image, `Camera::render` emits
the correct header `"P3\n2 3\n255\n"`, but `Camera::parallel_render` writes
`format!("P3\n{} {}\n255\n", self.image_width, self.image_width)` — the
width twice — so its output begins `"P3\n2 2\n255\n"` and does **not** begin
with the header the claim (and the PPM format) requires. -/
theorem c10_parallel_header_width_twice :
    (∃ s, parallelRenderString
        { image_height := 3, image_width := 2, aspectRatio := 1, center := ⟨0, 0, 0⟩,
          pixel00_loc := ⟨0, 0, 0⟩, pixel_delta_u := ⟨0, 0, 0⟩,
          pixel_delta_v := ⟨0, 0, 0⟩, samples_per_pixel := 1, max_depth := 1 }
        [] (fun _ _ _ => ⟨fun _ => 0, fun _ => 0, fun _ _ => ⟨0, 0, 0⟩⟩) 1 =
        "P3\n2 2\n255\n" ++ s) ∧
    (¬ ∃ s, parallelRenderString
        { image_height := 3, image_width := 2, aspectRatio := 1, center := ⟨0, 0, 0⟩,
          pixel00_loc := ⟨0, 0, 0⟩, pixel_delta_u := ⟨0, 0, 0⟩,
          pixel_delta_v := ⟨0, 0, 0⟩, samples_per_pixel := 1, max_depth := 1 }
        [] (fun _ _ _ => ⟨fun _ => 0, fun _ => 0, fun _ _ => ⟨0, 0, 0⟩⟩) 1 =
        "P3\n2 3\n255\n" ++ s) ∧
    (∃ s, renderString
        { image_height := 3, image_width := 2, aspectRatio := 1, center := ⟨0, 0, 0⟩,
          pixel00_loc := ⟨0, 0, 0⟩, pixel_delta_u := ⟨0, 0, 0⟩,
          pixel_delta_v := ⟨0, 0, 0⟩, samples_per_pixel := 1, max_depth := 1 }
        [] (fun _ _ => ⟨fun _ => 0, fun _ => 0, fun _ _ => ⟨0, 0, 0⟩⟩) =
        "P3\n2 3\n255\n" ++ s) := by
  have h1 : ∃ s, parallelRenderString
      { image_height := 3, image_width := 2, aspectRatio := 1, center := ⟨0, 0, 0⟩,
        pixel00_loc := ⟨0, 0, 0⟩, pixel_delta_u := ⟨0, 0, 0⟩,
        pixel_delta_v := ⟨0, 0, 0⟩, samples_per_pixel := 1, max_depth := 1 }
      [] (fun _ _ _ => ⟨fun _ => 0, fun _ => 0, fun _ _ => ⟨0, 0, 0⟩⟩) 1 =
      "P3\n2 2\n255\n" ++ s := by
    unfold parallelRenderString
    exact ⟨_, header_cat_22 _⟩
  obtain ⟨B, hB⟩ := h1
  refine ⟨⟨B, hB⟩, ?_, ?_⟩
  · rintro ⟨s, hs⟩
    rw [hB] at hs
    have hdata := congrArg String.data hs
    rw [String.data_append, String.data_append] at hdata
    have e1 : ("P3\n2 2\n255\n".data ++ B.data)[5]? = some '2' := by
      rw [List.getElem?_append_left (by decide)]
      decide
    rw [hdata, List.getElem?_append_left (by decide)] at e1
    exact absurd e1 (by decide)
  · unfold renderString
    exact ⟨_, header_cat_23 _⟩

end RayTrace
